import Mathlib

/-!
# Flash hypothesis construction (larana, `OpticalDetector/FlashHypothesisCreator.cxx`)

A shallow embedding of `opdet::FlashHypothesisCreator`.  The inputs (positions, energy
losses, constants, visibilities) are finite numbers, modelled by rationals.  Computed
values are `ieee.FloatVal`s: finite numbers or one of `+inf`, `-inf`, `NaN`.  The
interpolation `0.5*(dEdxVector[pt]+dEdxVector[pt-1])` of the source is a float32 sum
handed to a `float const&` parameter; it is rounded as such, overflow included
(`ieee.interpolate`).  The remaining arithmetic (the product of the two scintillation
constants, the photon-yield formula, finalize, the elementwise sums) is exact on finite
values, as in the formulas of the specification, and follows IEEE 754 on the special
values.  The services handed to every call (geometry, photon visibility, liquid-argon
properties, digitiser properties) belong to other packages and are taken as parameters.
`FlashHypothesisCollection` and `FlashHypothesisCalculator` belong to this repository
but their sources are not part of the excerpt, so they are modelled from the
specification.
-/

set_option autoImplicit false

namespace ieee

/-- Value of a floating-point variable: a finite number or one of the special values
`+inf`, `-inf`, `NaN`.  Signed zeros are not distinguished. -/
inductive FloatVal where
  | fin (q : ℚ)
  | pinf
  | ninf
  | nan
  deriving DecidableEq

namespace FloatVal

/-- Negation. -/
def neg : FloatVal → FloatVal
  | fin q => fin (-q)
  | pinf => ninf
  | ninf => pinf
  | nan => nan

/-- Addition: exact on finite values, `inf + (-inf) = NaN`. -/
def add : FloatVal → FloatVal → FloatVal
  | nan, _ => nan
  | _, nan => nan
  | pinf, ninf => nan
  | ninf, pinf => nan
  | pinf, _ => pinf
  | _, pinf => pinf
  | ninf, _ => ninf
  | _, ninf => ninf
  | fin a, fin b => fin (a + b)

/-- The product of the finite number `a` with `+inf` (`positive = true`) or with `-inf`
(`positive = false`): the infinity with the sign of the product, `NaN` when `a = 0`. -/
def infTimes (positive : Bool) (a : ℚ) : FloatVal :=
  if a = 0 then nan
  else if decide (0 < a) = positive then pinf else ninf

/-- Multiplication: exact on finite values, `inf * 0 = NaN`. -/
def mul : FloatVal → FloatVal → FloatVal
  | nan, _ => nan
  | _, nan => nan
  | fin a, fin b => fin (a * b)
  | fin a, pinf => infTimes true a
  | fin a, ninf => infTimes false a
  | pinf, fin b => infTimes true b
  | ninf, fin b => infTimes false b
  | pinf, pinf => pinf
  | ninf, ninf => pinf
  | pinf, ninf => ninf
  | ninf, pinf => ninf

/-- Division: exact on finite values with a non-zero divisor; `x / 0` is an infinity, or
`NaN` when `x = 0`; `inf / inf = NaN`; a finite value over an infinity is `0`. -/
def div : FloatVal → FloatVal → FloatVal
  | nan, _ => nan
  | _, nan => nan
  | fin a, fin b => if b = 0 then infTimes true a else fin (a / b)
  | fin _, pinf => fin 0
  | fin _, ninf => fin 0
  | pinf, fin b => if 0 ≤ b then pinf else ninf
  | ninf, fin b => if 0 ≤ b then ninf else pinf
  | pinf, pinf => nan
  | ninf, ninf => nan
  | pinf, ninf => nan
  | ninf, pinf => nan

instance : Neg FloatVal := ⟨neg⟩
instance : Add FloatVal := ⟨add⟩
instance : Mul FloatVal := ⟨mul⟩
instance : Div FloatVal := ⟨div⟩
instance : Sub FloatVal := ⟨fun a b => add a (neg b)⟩
instance : Zero FloatVal := ⟨fin 0⟩
instance : One FloatVal := ⟨fin 1⟩
instance (n : Nat) [n.AtLeastTwo] : OfNat FloatVal n := ⟨fin (OfNat.ofNat n)⟩
instance : Coe ℚ FloatVal := ⟨fin⟩

/-- The comparison `x >= 0` of the machine: false for `NaN`. -/
def IsNonneg : FloatVal → Prop
  | fin q => 0 ≤ q
  | pinf => True
  | ninf => False
  | nan => False

/-- A finite value. -/
def IsFinite : FloatVal → Prop
  | fin _ => True
  | _ => False

/-- A finite value that is `≥ 0`. -/
def IsFinNonneg : FloatVal → Prop
  | fin q => 0 ≤ q
  | _ => False

instance : DecidablePred IsNonneg
  | fin q => inferInstanceAs (Decidable (0 ≤ q))
  | pinf => isTrue trivial
  | ninf => isFalse (fun h => h)
  | nan => isFalse (fun h => h)

instance : DecidablePred IsFinite
  | fin _ => isTrue trivial
  | pinf => isFalse (fun h => h)
  | ninf => isFalse (fun h => h)
  | nan => isFalse (fun h => h)

instance : DecidablePred IsFinNonneg
  | fin q => inferInstanceAs (Decidable (0 ≤ q))
  | pinf => isFalse (fun h => h)
  | ninf => isFalse (fun h => h)
  | nan => isFalse (fun h => h)

/-- The comparison `x > y` of the machine: false when one side is `NaN`. -/
def gt : FloatVal → FloatVal → Bool
  | nan, _ => false
  | _, nan => false
  | fin a, fin b => decide (b < a)
  | fin _, pinf => false
  | fin _, ninf => true
  | pinf, pinf => false
  | pinf, _ => true
  | ninf, _ => false

end FloatVal

/-- Round to the nearest integer, ties to the even one. -/
def roundHalfEven (x : ℚ) : ℤ :=
  if x - ⌊x⌋ < 1 / 2 then ⌊x⌋
  else if 1 / 2 < x - ⌊x⌋ then ⌊x⌋ + 1
  else if ⌊x⌋ % 2 = 0 then ⌊x⌋ else ⌊x⌋ + 1

/-- A binary floating-point format: precision in bits and exponent range. -/
structure Format where
  prec : Nat
  emin : Int
  emax : Int

/-- IEEE 754 binary32 (`float`). -/
def binary32 : Format := ⟨24, -126, 127⟩

/-- IEEE 754 binary64 (`double`). -/
def binary64 : Format := ⟨53, -1022, 1023⟩

/-- Rounding of a rational to the format, to nearest with ties to even, with gradual
underflow and overflow to an infinity. -/
def Format.round (F : Format) (q : ℚ) : FloatVal :=
  if q = 0 then .fin 0
  else if (2 : ℚ) ^ (F.emax + 1)
      ≤ |(roundHalfEven (q / (2 : ℚ) ^ (max (Int.log 2 |q|) F.emin - ((F.prec : ℤ) - 1))) : ℚ)
          * (2 : ℚ) ^ (max (Int.log 2 |q|) F.emin - ((F.prec : ℤ) - 1))| then
    (if 0 < q then .pinf else .ninf)
  else
    .fin ((roundHalfEven (q / (2 : ℚ) ^ (max (Int.log 2 |q|) F.emin - ((F.prec : ℤ) - 1))) : ℚ)
      * (2 : ℚ) ^ (max (Int.log 2 |q|) F.emin - ((F.prec : ℤ) - 1)))

/-- Rounding of a value that may already be special. -/
def Format.roundVal (F : Format) : FloatVal → FloatVal
  | .fin q => F.round q
  | x => x


/-- The expression `0.5*(a+b)` with `float` operands, handed to a `float const&`
parameter: the sum is a float32 addition; its product with the `double` constant `0.5`
is taken in double; the result is converted to float32. -/
def interpolate (a b : ℚ) : FloatVal :=
  binary32.roundVal (binary64.roundVal (FloatVal.fin (1 / 2) * binary32.round (a + b)))

end ieee

namespace opdet

open ieee

/-! ## Data model -/

/-- Cartesian three-vector (`TVector3`). -/
structure TVector3 where
  x : ℚ
  y : ℚ
  z : ℚ
  deriving DecidableEq

/-- Componentwise difference, `a - b` on `TVector3`. -/
def TVector3.sub (a b : TVector3) : TVector3 :=
  ⟨a.x - b.x, a.y - b.y, a.z - b.z⟩

/-- Squared magnitude, `TVector3::Mag2`. -/
def TVector3.Mag2 (a : TVector3) : ℚ :=
  a.x * a.x + a.y * a.y + a.z * a.z

/-- Four-vector (`TLorentzVector`): a position and a time. -/
structure TLorentzVector where
  x : ℚ
  y : ℚ
  z : ℚ
  t : ℚ
  deriving DecidableEq

/-- Spatial part, `TLorentzVector::Vect`. -/
def TLorentzVector.Vect (v : TLorentzVector) : TVector3 :=
  ⟨v.x, v.y, v.z⟩

/-- Reconstructed track (`recob::Track`): only its ordered trajectory points are used. -/
structure Track where
  fXYZ : List TVector3
  deriving DecidableEq

/-- Number of trajectory points, `recob::Track::NumberTrajectoryPoints`. -/
def Track.NumberTrajectoryPoints (track : Track) : Nat :=
  track.fXYZ.length

/-- Position of point `i`, `recob::Track::LocationAtPoint`. -/
def Track.LocationAtPoint (track : Track) (i : Nat) : TVector3 :=
  track.fXYZ.getD i ⟨0, 0, 0⟩

/-- One step of a simulated track (`sim::MCStep`): position and momentum four-vectors. -/
structure MCStep where
  Position : TLorentzVector
  Momentum : TLorentzVector
  deriving DecidableEq

/-- Simulated track (`sim::MCTrack`), a vector of steps. -/
abbrev MCTrack := List MCStep

/-- Element access `mctrack[i]`. -/
def MCTrack.at (mctrack : MCTrack) (i : Nat) : MCStep :=
  mctrack.getD i ⟨⟨0, 0, 0, 0⟩, ⟨0, 0, 0, 0⟩⟩

/-- Detector geometry (`geo::Geometry`): only the optical-detector count is used. -/
structure Geometry where
  NOpDets : Nat

/-- Visibility table (`phot::PhotonVisibilityService`): position to per-detector
visibilities; the returned vector may be empty or of a wrong length. -/
structure PhotonVisibilityService where
  GetAllVisibilities : TVector3 → List ℚ

/-- Scintillation constants (`detinfo::LArProperties`). -/
structure LArProperties where
  ScintYield : ℚ
  ScintYieldRatio : ℚ

/-- Digitiser properties (`opdet::OpDigiProperties`): the quantum efficiency. -/
structure OpDigiProperties where
  QE : ℚ

/-- Failures of hypothesis construction.  `inputShape` carries the string literal
thrown by the creator; the other two are raised by the Collection. -/
inductive Error where
  | inputShape (what : String)
  | configuration
  | lengthMismatch
  deriving DecidableEq

/-- Per-detector vector for one light component (`FlashHypothesis`); its entries are
computed values. -/
abbrev FlashHypothesis := List FloatVal

/-- Modelled from the spec: the constructor `FlashHypothesis(N)` (class not in the
excerpt), a zero-filled vector of length `N`. -/
def FlashHypothesis.zeros (N : Nat) : FlashHypothesis :=
  List.replicate N 0

/-- The three light components of one trajectory (`FlashHypothesisCollection`). -/
structure FlashHypothesisCollection where
  prompt : FlashHypothesis
  late : FlashHypothesis
  total : FlashHypothesis
  deriving DecidableEq

namespace FlashHypothesisCollection

/-- Modelled from the spec: `empty(N)` of section 4.1, the constructor
`FlashHypothesisCollection(N)` (class not in the excerpt): all three components
zero-filled, length `N`. -/
def empty (N : Nat) : FlashHypothesisCollection :=
  ⟨FlashHypothesis.zeros N, FlashHypothesis.zeros N, FlashHypothesis.zeros N⟩

/-- Modelled from the spec: the detector count of a Collection (class not in the
excerpt), the common length of its components. -/
def detectorCount (c : FlashHypothesisCollection) : Nat :=
  c.prompt.length

/-- Modelled from the spec: `add(a, b)` of section 4.1, `operator+` (class not in the
excerpt): elementwise sum of the three components; fails only if the two detector
counts differ. -/
def add (a b : FlashHypothesisCollection) : Except Error FlashHypothesisCollection :=
  if a.detectorCount = b.detectorCount then
    .ok ⟨List.zipWith (· + ·) a.prompt b.prompt,
         List.zipWith (· + ·) a.late b.late,
         List.zipWith (· + ·) a.total b.total⟩
  else
    .error .lengthMismatch

/-- Modelled from the spec: `finalize(promptHypothesis, promptFraction)` of section 4.1,
`SetPromptHypAndPromptFraction` (class not in the excerpt): the prompt component
becomes the given vector, `total[d] = prompt[d] / promptFraction`,
`late[d] = total[d] - prompt[d]`; `promptFraction ≤ 0` is the fatal configuration
error.  All three components of the receiver are overwritten. -/
def SetPromptHypAndPromptFraction (_self : FlashHypothesisCollection)
    (hyp : FlashHypothesis) (frac : ℚ) : Except Error FlashHypothesisCollection :=
  if frac ≤ 0 then
    .error .configuration
  else
    .ok ⟨hyp, hyp.map (fun p => p / FloatVal.fin frac - p),
      hyp.map (fun p => p / FloatVal.fin frac)⟩

end FlashHypothesisCollection

/-- The photon yield calculator (`FlashHypothesisCalculator`, member `_calc` of the
creator).  Its only ingredient that rationals cannot express is the square root
behind the segment length (`TVector3::Mag`); it is a parameter, required to be
non-negative and exact on squares. -/
structure FlashHypothesisCalculator where
  sqrt : ℚ → ℚ
  sqrt_nonneg : ∀ q, 0 ≤ sqrt q
  sqrt_mul_self : ∀ q, 0 ≤ q → sqrt (q * q) = q

namespace FlashHypothesisCalculator

/-- Modelled from the spec: `segmentLength(p1, p2)` of section 4.2 (calculator not in
the excerpt), the magnitude of `pt2 - pt1`. -/
def segmentLength (hc : FlashHypothesisCalculator) (pt1 pt2 : TVector3) : ℚ :=
  hc.sqrt (pt2.sub pt1).Mag2

/-- Modelled from the spec: `segmentMidpoint(p1, p2, offset)` of section 4.2
(calculator not in the excerpt): the midpoint with the drift (x) coordinate shifted by
the offset. -/
def SegmentMidpoint (_hc : FlashHypothesisCalculator) (pt1 pt2 : TVector3)
    (XOffset : ℚ) : TVector3 :=
  ⟨(1 / 2) * (pt2.x + pt1.x) + XOffset, (1 / 2) * (pt2.y + pt1.y), (1 / 2) * (pt2.z + pt1.z)⟩

/-- Modelled from the spec: `fillPromptHypothesis` of section 4.2 (calculator not in
the excerpt): every detector `d` of the output hypothesis is set to
`yield * dEdx * segmentLength(pt1, pt2) * qe_vector[d] * vis_vector[d]`. -/
def FillFlashHypothesis (hc : FlashHypothesisCalculator) (yield : ℚ) (dEdx : FloatVal)
    (pt1 pt2 : TVector3) (qe_vector vis_vector : List ℚ) (hyp : FlashHypothesis) :
    FlashHypothesis :=
  (List.range hyp.length).map
    (fun d => FloatVal.fin yield * dEdx * FloatVal.fin (hc.segmentLength pt1 pt2)
      * FloatVal.fin (qe_vector.getD d 0) * FloatVal.fin (vis_vector.getD d 0))

end FlashHypothesisCalculator

/-! ## The creator -/

/-- Contribution of one segment, `FlashHypothesisCreator::CreateFlashHypothesesFromSegment`.
The parameter `dEdx` is a computed float32 value and may be special. -/
def CreateFlashHypothesesFromSegment (hc : FlashHypothesisCalculator)
    (pt1 pt2 : TVector3) (dEdx : FloatVal) (geom : Geometry) (pvs : PhotonVisibilityService)
    (larp : LArProperties) (opdigip : OpDigiProperties) (XOffset : ℚ) :
    Except Error FlashHypothesisCollection :=
  let fhc := FlashHypothesisCollection.empty geom.NOpDets
  let prompt_hyp := FlashHypothesis.zeros geom.NOpDets
  let xyz_segment := hc.SegmentMidpoint pt1 pt2 XOffset
  let PointVisibility := pvs.GetAllVisibilities xyz_segment
  if PointVisibility.length ≠ geom.NOpDets then
    .ok fhc
  else
    let qe_vector := List.replicate geom.NOpDets opdigip.QE
    let prompt_hyp := hc.FillFlashHypothesis (larp.ScintYield * larp.ScintYieldRatio) dEdx
      pt1 pt2 qe_vector PointVisibility prompt_hyp
    fhc.SetPromptHypAndPromptFraction prompt_hyp larp.ScintYieldRatio

/-- The loop `for (pt = 1; pt < size; pt++) fhc = fhc + CreateFlashHypothesesFromSegment(...)`
shared, up to the point accessor `locationAt`, by the three multi-point overloads.
`pts` lists the values of `pt` still to be visited.  The interpolation
`0.5*(dEdxVector[pt]+dEdxVector[pt-1])` is the float32 computation `ieee.interpolate`. -/
def segmentLoop (hc : FlashHypothesisCalculator) (locationAt : Nat → TVector3)
    (dEdxVector : List ℚ) (interpolate_dEdx : Bool) (geom : Geometry)
    (pvs : PhotonVisibilityService) (larp : LArProperties) (opdigip : OpDigiProperties)
    (XOffset : ℚ) : List Nat → FlashHypothesisCollection →
      Except Error FlashHypothesisCollection
  | [], fhc => .ok fhc
  | pt :: pts, fhc =>
    let seg :=
      if interpolate_dEdx then
        CreateFlashHypothesesFromSegment hc (locationAt (pt - 1)) (locationAt pt)
          (interpolate (dEdxVector.getD pt 0) (dEdxVector.getD (pt - 1) 0))
          geom pvs larp opdigip XOffset
      else
        CreateFlashHypothesesFromSegment hc (locationAt (pt - 1)) (locationAt pt)
          (FloatVal.fin (dEdxVector.getD (pt - 1) 0))
          geom pvs larp opdigip XOffset
    match seg with
    | .error e => .error e
    | .ok s =>
      match fhc.add s with
      | .error e => .error e
      | .ok fhc' =>
        segmentLoop hc locationAt dEdxVector interpolate_dEdx geom pvs larp opdigip XOffset
          pts fhc'

/-- Overload `GetFlashHypothesisCollection(recob::Track const&, ...)`. -/
def GetFlashHypothesisCollection_track (hc : FlashHypothesisCalculator) (track : Track)
    (dEdxVector : List ℚ) (geom : Geometry) (pvs : PhotonVisibilityService)
    (larp : LArProperties) (opdigip : OpDigiProperties) (XOffset : ℚ) :
    Except Error FlashHypothesisCollection :=
  if track.NumberTrajectoryPoints = dEdxVector.length then
    segmentLoop hc track.LocationAtPoint dEdxVector true geom pvs larp opdigip XOffset
      (List.range' 1 (track.NumberTrajectoryPoints - 1))
      (FlashHypothesisCollection.empty geom.NOpDets)
  else if track.NumberTrajectoryPoints = dEdxVector.length + 1 then
    segmentLoop hc track.LocationAtPoint dEdxVector false geom pvs larp opdigip XOffset
      (List.range' 1 (track.NumberTrajectoryPoints - 1))
      (FlashHypothesisCollection.empty geom.NOpDets)
  else
    .error (.inputShape
      "ERROR in FlashHypothesisCreator: dEdx vector size not compatible with track size.")

/-- Overload `GetFlashHypothesisCollection(sim::MCTrack const&, ...)`. -/
def GetFlashHypothesisCollection_mctrack (hc : FlashHypothesisCalculator)
    (mctrack : MCTrack) (dEdxVector : List ℚ) (geom : Geometry)
    (pvs : PhotonVisibilityService) (larp : LArProperties) (opdigip : OpDigiProperties)
    (XOffset : ℚ) : Except Error FlashHypothesisCollection :=
  if mctrack.length = dEdxVector.length then
    segmentLoop hc (fun pt => (mctrack.at pt).Position.Vect) dEdxVector true geom pvs larp
      opdigip XOffset (List.range' 1 (mctrack.length - 1))
      (FlashHypothesisCollection.empty geom.NOpDets)
  else if mctrack.length = dEdxVector.length + 1 then
    segmentLoop hc (fun pt => (mctrack.at pt).Position.Vect) dEdxVector false geom pvs larp
      opdigip XOffset (List.range' 1 (mctrack.length - 1))
      (FlashHypothesisCollection.empty geom.NOpDets)
  else
    .error (.inputShape
      "ERROR in FlashHypothesisCreator: dEdx vector size not compatible with mctrack size.")

/-- Overload `GetFlashHypothesisCollection(std::vector<TVector3> const&, ...)`. -/
def GetFlashHypothesisCollection_trajVector (hc : FlashHypothesisCalculator)
    (trajVector : List TVector3) (dEdxVector : List ℚ) (geom : Geometry)
    (pvs : PhotonVisibilityService) (larp : LArProperties) (opdigip : OpDigiProperties)
    (XOffset : ℚ) : Except Error FlashHypothesisCollection :=
  if trajVector.length = dEdxVector.length then
    segmentLoop hc (fun pt => trajVector.getD pt ⟨0, 0, 0⟩) dEdxVector true geom pvs larp
      opdigip XOffset (List.range' 1 (trajVector.length - 1))
      (FlashHypothesisCollection.empty geom.NOpDets)
  else if trajVector.length = dEdxVector.length + 1 then
    segmentLoop hc (fun pt => trajVector.getD pt ⟨0, 0, 0⟩) dEdxVector false geom pvs larp
      opdigip XOffset (List.range' 1 (trajVector.length - 1))
      (FlashHypothesisCollection.empty geom.NOpDets)
  else
    .error (.inputShape
      "ERROR in FlashHypothesisCreator: dEdx vector size not compatible with trajVector size.")

/-- Overload `GetFlashHypothesisCollection(TVector3 const& pt1, TVector3 const& pt2, ...)`. -/
def GetFlashHypothesisCollection_pt1pt2 (hc : FlashHypothesisCalculator)
    (pt1 pt2 : TVector3) (dEdx : ℚ) (geom : Geometry) (pvs : PhotonVisibilityService)
    (larp : LArProperties) (opdigip : OpDigiProperties) (XOffset : ℚ) :
    Except Error FlashHypothesisCollection :=
  CreateFlashHypothesesFromSegment hc pt1 pt2 (FloatVal.fin dEdx) geom pvs larp opdigip
    XOffset

/-! ## Concrete values used by the witnesses -/

/-- A square root on rationals, exact on squares of rationals (integer square roots of
numerator and denominator). -/
def ratSqrt (q : ℚ) : ℚ :=
  (Nat.sqrt q.num.toNat : ℚ) / (Nat.sqrt q.den : ℚ)

/-- A calculator whose square root is `ratSqrt`. -/
def calcQ : FlashHypothesisCalculator where
  sqrt := ratSqrt
  sqrt_nonneg := fun q => by unfold ratSqrt; positivity
  sqrt_mul_self := fun q hq => by
    unfold ratSqrt
    have hn : 0 ≤ q.num := Rat.num_nonneg.mpr hq
    obtain ⟨n, hn'⟩ := Int.eq_ofNat_of_zero_le hn
    rw [Rat.mul_self_num, Rat.mul_self_den, hn']
    have hsq : ((n : ℤ) * (n : ℤ)).toNat = n * n := by
      rw [← Int.natCast_mul]; exact Int.toNat_natCast _
    rw [hsq, Nat.sqrt_eq, Nat.sqrt_eq]
    have h := Rat.num_div_den q
    rw [hn'] at h
    simpa using h

/-! ## Auxiliary notions -/

section auxdefs

variable (hc : FlashHypothesisCalculator) (geom : Geometry) (pvs : PhotonVisibilityService)
  (larp : LArProperties) (opdigip : OpDigiProperties) (XOffset : ℚ)

/-- All three components have length `N`. -/
def FlashHypothesisCollection.WellSized (N : Nat) (c : FlashHypothesisCollection) : Prop :=
  c.prompt.length = N ∧ c.late.length = N ∧ c.total.length = N

/-- The energy loss per length handed to the segment ending at point `pt`. -/
def segmentdEdx (dEdxVector : List ℚ) (interpolate_dEdx : Bool) (pt : Nat) : FloatVal :=
  if interpolate_dEdx then interpolate (dEdxVector.getD pt 0) (dEdxVector.getD (pt - 1) 0)
  else FloatVal.fin (dEdxVector.getD (pt - 1) 0)

/-- The visibility vector looked up for the segment `(pt1, pt2)`. -/
def segmentVisibility (hc : FlashHypothesisCalculator) (pvs : PhotonVisibilityService)
    (XOffset : ℚ) (pt1 pt2 : TVector3) : List ℚ :=
  pvs.GetAllVisibilities (hc.SegmentMidpoint pt1 pt2 XOffset)

/-- The prompt vector of a segment inside the visibility domain. -/
def segmentPrompt (pt1 pt2 : TVector3) (dEdx : FloatVal) : FlashHypothesis :=
  (List.range geom.NOpDets).map (fun d =>
    FloatVal.fin (larp.ScintYield * larp.ScintYieldRatio) * dEdx
      * FloatVal.fin (hc.segmentLength pt1 pt2) * FloatVal.fin opdigip.QE
      * FloatVal.fin ((segmentVisibility hc pvs XOffset pt1 pt2).getD d 0))

/-- Elementwise sum of two Collections (the successful branch of `add`). -/
def FlashHypothesisCollection.plus (a b : FlashHypothesisCollection) :
    FlashHypothesisCollection :=
  ⟨List.zipWith (· + ·) a.prompt b.prompt, List.zipWith (· + ·) a.late b.late,
    List.zipWith (· + ·) a.total b.total⟩

/-- The segment ending at point `pt` has a visibility vector of the detector count. -/
def segmentInDomain (locationAt : Nat → TVector3) (pt : Nat) : Bool :=
  decide ((segmentVisibility hc pvs XOffset (locationAt (pt - 1)) (locationAt pt)).length
    = geom.NOpDets)

/-- The Collection a segment contributes when no error is raised. -/
def segmentCollection (locationAt : Nat → TVector3) (dEdxVector : List ℚ)
    (interpolate_dEdx : Bool) (pt : Nat) : FlashHypothesisCollection :=
  if segmentInDomain hc geom pvs XOffset locationAt pt then
    ⟨segmentPrompt hc geom pvs larp opdigip XOffset (locationAt (pt - 1)) (locationAt pt)
        (segmentdEdx dEdxVector interpolate_dEdx pt),
      (segmentPrompt hc geom pvs larp opdigip XOffset (locationAt (pt - 1)) (locationAt pt)
        (segmentdEdx dEdxVector interpolate_dEdx pt)).map
          (fun p => p / FloatVal.fin larp.ScintYieldRatio - p),
      (segmentPrompt hc geom pvs larp opdigip XOffset (locationAt (pt - 1)) (locationAt pt)
        (segmentdEdx dEdxVector interpolate_dEdx pt)).map
          (fun p => p / FloatVal.fin larp.ScintYieldRatio)⟩
  else
    FlashHypothesisCollection.empty geom.NOpDets

/-- The common body of the three multi-point overloads: `size` is the number of
trajectory points, `locationAt` the point accessor and `what` the thrown literal. -/
def multiPointOverload (size : Nat) (locationAt : Nat → TVector3) (what : String)
    (dEdxVector : List ℚ) : Except Error FlashHypothesisCollection :=
  if size = dEdxVector.length then
    segmentLoop hc locationAt dEdxVector true geom pvs larp opdigip XOffset
      (List.range' 1 (size - 1)) (FlashHypothesisCollection.empty geom.NOpDets)
  else if size = dEdxVector.length + 1 then
    segmentLoop hc locationAt dEdxVector false geom pvs larp opdigip XOffset
      (List.range' 1 (size - 1)) (FlashHypothesisCollection.empty geom.NOpDets)
  else
    .error (.inputShape what)

/-- The result is the input-shape error. -/
def isInputShapeError (r : Except Error FlashHypothesisCollection) : Bool :=
  match r with
  | .error (.inputShape _) => true
  | _ => false

/-- The result is a Collection. -/
def isCollection (r : Except Error FlashHypothesisCollection) : Bool :=
  match r with
  | .ok _ => true
  | .error _ => false

/-- Component consistency: in every detector, total is prompt plus late. -/
def FlashHypothesisCollection.Consistent (c : FlashHypothesisCollection) : Prop :=
  ∀ d, c.total.getD d 0 = c.prompt.getD d 0 + c.late.getD d 0

/-- Two results agree: the same Collection, or an error of the same kind (the text of the
thrown input-shape literal is not compared). -/
def sameResult (r1 r2 : Except Error FlashHypothesisCollection) : Bool :=
  match r1, r2 with
  | .ok a, .ok b => decide (a = b)
  | .error (.inputShape _), .error (.inputShape _) => true
  | .error .configuration, .error .configuration => true
  | .error .lengthMismatch, .error .lengthMismatch => true
  | _, _ => false

/-- Every entry of the three components is a finite number `≥ 0`. -/
def FlashHypothesisCollection.Nonneg (c : FlashHypothesisCollection) : Prop :=
  ∀ d, (c.prompt.getD d 0).IsFinNonneg ∧ (c.late.getD d 0).IsFinNonneg
    ∧ (c.total.getD d 0).IsFinNonneg

end auxdefs

end opdet

/-!
# Truth matching (larana, `T0Finder/MCTruthT0Matching_module.cc`)

A shallow embedding of `t0::MCTruthT0Matching::produce`.  The back tracker
(`cheat::BackTracker`) and the event are external and taken as parameters; the energies it
reports are finite numbers, modelled by rationals; the sums the module accumulates are
`double` values, rounded as such; a hit is a plain key.
-/

namespace t0

open ieee

section t0defs

/-- Energy contribution of one particle to a hit (`sim::TrackIDE`). -/
structure TrackIDE where
  trackID : Int
  energyFrac : ℚ
  energy : ℚ
  deriving DecidableEq

/-- Truth particle (`simb::MCParticle`): only `TrackId()` and `T()` are used. -/
structure MCParticle where
  TrackId : Int
  T : ℚ
  deriving DecidableEq

/-- A reconstructed hit (`art::Ptr<recob::Hit>`), a plain key. -/
abbrev Hit := Nat

/-- The back tracker service (`cheat::BackTracker`): `TrackIDToParticle` answers `none`
for the null pointer. -/
structure BackTracker where
  HitToTrackID : Hit → List TrackIDE
  TrackIDToParticle : Int → Option MCParticle

/-- The stored object `anab::T0(Time, TriggerType, TriggerBits, ID)`. -/
structure T0 where
  Time : ℚ
  TriggerType : Nat
  TriggerBits : Int
  ID : Nat
  deriving DecidableEq

/-- The event as `produce` reads it: the real-data flag and, for tracks and for showers,
the hits associated with each object (`art::FindManyP<recob::Hit>`); `none` stands for
an invalid handle. -/
structure Event where
  isRealData : Bool
  tracks : Option (List (List Hit))
  showers : Option (List (List Hit))

/-- What `produce` puts into the event, and the entries filled into the tree. -/
structure Products where
  T0col : List T0
  Trackassn : List (Nat × Nat)
  Showerassn : List (Nat × Nat)
  tree : List (ℚ × Int)
  deriving DecidableEq

/-- The statement `m[k] += e` on a `std::map<int,double>`, kept as a list of entries in
ascending key order; a missing key is inserted with value `0` first.  The sum is a
`double` addition. -/
def mapAdd : List (Int × FloatVal) → Int → ℚ → List (Int × FloatVal)
  | [], k, e => [(k, binary64.roundVal (0 + FloatVal.fin e))]
  | (k', v) :: rest, k, e =>
    if k < k' then (k, binary64.roundVal (0 + FloatVal.fin e)) :: (k', v) :: rest
    else if k = k' then (k', binary64.roundVal (v + FloatVal.fin e)) :: rest
    else (k', v) :: mapAdd rest k e

/-- The two nested loops over the hits and over the contributions of each hit, filling
the map `trkide` (lines 194-203; `showeride` in lines 244-253). -/
def accumulateIDEs (bt : BackTracker) (allHits : List Hit) : List (Int × FloatVal) :=
  allHits.foldl
    (fun trkide hit =>
      (bt.HitToTrackID hit).foldl (fun m ide => mapAdd m ide.trackID ide.energy) trkide)
    []

/-- State of the selection loop: `maxe`, `tote` and the identifier chosen so far. -/
structure Selection where
  maxe : FloatVal
  tote : FloatVal
  TrackID : Int
  deriving DecidableEq

/-- Body of the selection loop for the map entry `ii`: `tote += ii->second`, and the
entry replaces the current choice when its energy is strictly larger than `maxe`. -/
def selectStep (st : Selection) (ii : Int × FloatVal) : Selection :=
  if FloatVal.gt ii.2 st.maxe then ⟨ii.2, binary64.roundVal (st.tote + ii.2), ii.1⟩
  else ⟨st.maxe, binary64.roundVal (st.tote + ii.2), st.TrackID⟩

/-- The loop over the map that keeps the entry of largest energy (lines 205-213 and
255-263); `TrackID` is the value the identifier has before the loop. -/
def selectMostCharge (trkide : List (Int × FloatVal)) (TrackID : Int) : Selection :=
  trkide.foldl selectStep ⟨FloatVal.fin (-1), 0, TrackID⟩

/-- The loop over the tracks (lines 188-231); `iTrk` is the index of the first track of
the list. -/
def trackLoop (bt : BackTracker) : List (List Hit) → Nat → Products → Products
  | [], _, out => out
  | allHits :: rest, iTrk, out =>
    let trkide := accumulateIDEs bt allHits
    let TrackID := (selectMostCharge trkide 0).TrackID
    match bt.TrackIDToParticle TrackID with
    | none => trackLoop bt rest (iTrk + 1) out
    | some particle =>
      let TrueTrackT0 := particle.T
      let TrueTrackID := particle.TrackId
      let TrueTriggerType := 2
      trackLoop bt rest (iTrk + 1)
        ⟨out.T0col ++ [⟨TrueTrackT0, TrueTriggerType, TrueTrackID, out.T0col.length⟩],
          out.Trackassn ++ [(iTrk, out.T0col.length)],
          out.Showerassn,
          out.tree ++ [(TrueTrackT0, TrueTrackID)]⟩

/-- The loop over the showers (lines 238-276). -/
def showerLoop (bt : BackTracker) : List (List Hit) → Nat → Products → Products
  | [], _, out => out
  | allHits :: rest, Shower, out =>
    let showeride := accumulateIDEs bt allHits
    let ShowerID := (selectMostCharge showeride 0).TrackID
    match bt.TrackIDToParticle ShowerID with
    | none => showerLoop bt rest (Shower + 1) out
    | some particle =>
      let ShowerT0 := particle.T
      let ShowerID := particle.TrackId
      let ShowerTriggerType := 2
      showerLoop bt rest (Shower + 1)
        ⟨out.T0col ++ [⟨ShowerT0, ShowerTriggerType, ShowerID, out.T0col.length⟩],
          out.Trackassn,
          out.Showerassn ++ [(Shower, out.T0col.length)],
          out.tree⟩

/-- The module's `produce`; `none` when it returns at once on real data. -/
def produce (bt : BackTracker) (evt : Event) : Option Products :=
  if evt.isRealData then none
  else
    let afterTracks :=
      match evt.tracks with
      | none => (⟨[], [], [], []⟩ : Products)
      | some tracklist => trackLoop bt tracklist 0 ⟨[], [], [], []⟩
    let afterShowers :=
      match evt.showers with
      | none => afterTracks
      | some showerlist => showerLoop bt showerlist 0 afterTracks
    some afterShowers

/-- The back tracker of the examples: hit `h` has the contributions `table[h]`, and the
particles known are those with the identifiers `known` (generated at time `100`). -/
def btOf (table : List (List TrackIDE)) (known : List Int) : BackTracker :=
  ⟨fun h => table.getD h [], fun id => if id ∈ known then some ⟨id, 100⟩ else none⟩

end t0defs

end t0


/-! # Lemmas on floating-point values -/

namespace ieee

namespace FloatVal

theorem zero_def : (0 : FloatVal) = fin 0 := rfl

theorem ofNat_eq (n : Nat) [n.AtLeastTwo] :
    (no_index (OfNat.ofNat n) : FloatVal) = fin (OfNat.ofNat n) := rfl

theorem fmul_one (x : FloatVal) : x * fin 1 = x := by
  show mul x (fin 1) = x
  cases x <;> simp [mul, infTimes]

theorem fin_add_fin (a b : ℚ) : fin a + fin b = fin (a + b) := rfl

theorem fin_mul_fin (a b : ℚ) : fin a * fin b = fin (a * b) := rfl

theorem fin_sub_fin (a b : ℚ) : fin a - fin b = fin (a - b) := by
  show add (fin a) (neg (fin b)) = fin (a - b)
  simp [add, neg, sub_eq_add_neg]

theorem fin_div_fin (a b : ℚ) (hb : b ≠ 0) : fin a / fin b = fin (a / b) := by
  show div (fin a) (fin b) = fin (a / b)
  simp [div, hb]

theorem fzero_add (a : FloatVal) : 0 + a = a := by
  cases a <;> simp [zero_def] <;> first | rfl | (show add _ _ = _; simp [add])

theorem fadd_zero (a : FloatVal) : a + 0 = a := by
  cases a <;> simp [zero_def] <;> first | rfl | (show add _ _ = _; simp [add])

theorem fadd_comm (a b : FloatVal) : a + b = b + a := by
  show add a b = add b a
  cases a <;> cases b <;> simp [add, add_comm]

theorem fadd_assoc (a b c : FloatVal) : a + b + c = a + (b + c) := by
  show add (add a b) c = add a (add b c)
  cases a <;> cases b <;> cases c <;> simp [add, add_assoc]

theorem fadd_right_comm (a b c : FloatVal) : a + b + c = a + c + b := by
  rw [fadd_assoc, fadd_comm b c, ← fadd_assoc]

theorem fadd_add_add_comm (a b c d : FloatVal) : a + b + (c + d) = a + c + (b + d) := by
  rw [fadd_assoc, ← fadd_assoc b c d, fadd_comm b c, fadd_assoc c b d, ← fadd_assoc]

theorem zero_div_fin (f : ℚ) (hf : f ≠ 0) : (0 : FloatVal) / fin f = 0 := by
  show div (fin 0) (fin f) = fin 0
  simp [div, hf]

theorem zero_sub_zero : (0 : FloatVal) - 0 = 0 := by
  show add (fin 0) (neg (fin 0)) = fin 0
  simp [add, neg]

theorem zero_div_sub (f : ℚ) (hf : f ≠ 0) : (0 : FloatVal) / fin f - 0 = 0 := by
  rw [zero_div_fin f hf, zero_sub_zero]

/-- For a finite prompt value, `total = prompt + late`. -/
theorem div_eq_add_sub (p : FloatVal) (f : ℚ) (hp : p.IsFinite) :
    p / fin f = p + (p / fin f - p) := by
  cases p with
  | fin a =>
    show div (fin a) (fin f) = add (fin a) (add (div (fin a) (fin f)) (neg (fin a)))
    by_cases hf : f = 0
    · by_cases ha : a = 0
      · simp [div, hf, infTimes, ha, add, neg]
      · by_cases hpos : 0 < a
        · simp [div, hf, infTimes, ha, hpos, add, neg]
        · simp [div, hf, infTimes, ha, hpos, add, neg]
    · simp [div, hf, add, neg]
  | pinf => exact hp.elim
  | ninf => exact hp.elim
  | nan => exact hp.elim

theorem isFinNonneg_zero : (0 : FloatVal).IsFinNonneg := le_refl (0 : ℚ)

theorem isFinNonneg_add (a b : FloatVal) (ha : a.IsFinNonneg) (hb : b.IsFinNonneg) :
    (a + b).IsFinNonneg := by
  cases a with
  | fin x =>
    cases b with
    | fin y => exact (add_nonneg ha hb : (0 : ℚ) ≤ x + y)
    | pinf => exact hb.elim
    | ninf => exact hb.elim
    | nan => exact hb.elim
  | pinf => exact ha.elim
  | ninf => exact ha.elim
  | nan => exact ha.elim

theorem isFinNonneg_div (p : FloatVal) (f : ℚ) (hf : 0 < f) (hp : p.IsFinNonneg) :
    (p / fin f).IsFinNonneg := by
  cases p with
  | fin x =>
    rw [fin_div_fin x f hf.ne']
    exact (div_nonneg hp hf.le : (0 : ℚ) ≤ x / f)
  | pinf => exact hp.elim
  | ninf => exact hp.elim
  | nan => exact hp.elim

theorem isFinNonneg_div_sub (p : FloatVal) (f : ℚ) (hf : 0 < f) (hf1 : f ≤ 1)
    (hp : p.IsFinNonneg) : (p / fin f - p).IsFinNonneg := by
  cases p with
  | fin x =>
    rw [fin_div_fin x f hf.ne', fin_sub_fin]
    have hx : (0 : ℚ) ≤ x := hp
    have hdiv : x ≤ x / f := by
      rw [le_div_iff₀ hf]
      nlinarith
    exact sub_nonneg.mpr hdiv
  | pinf => exact hp.elim
  | ninf => exact hp.elim
  | nan => exact hp.elim

end FloatVal


theorem roundHalfEven_intCast (n : ℤ) : roundHalfEven (n : ℚ) = n := by
  simp [roundHalfEven]

theorem roundHalfEven_nonneg (x : ℚ) (hx : 0 ≤ x) : 0 ≤ roundHalfEven x := by
  have h : 0 ≤ ⌊x⌋ := Int.floor_nonneg.mpr hx
  unfold roundHalfEven
  split_ifs <;> omega

theorem log_eq_of_bounds (q : ℚ) (e : ℤ) (h1 : (2 : ℚ) ^ e ≤ |q|)
    (h2 : |q| < (2 : ℚ) ^ (e + 1)) : Int.log 2 |q| = e := by
  have hpos : 0 < |q| := lt_of_lt_of_le (by positivity) h1
  apply le_antisymm
  · have h := (Int.lt_zpow_iff_log_lt (b := 2) (by norm_num) hpos (x := e + 1)).mp
      (by exact_mod_cast h2)
    omega
  · exact (Int.zpow_le_iff_le_log (b := 2) (by norm_num) hpos).mp (by exact_mod_cast h1)

/-- A multiple of its own quantum below the overflow threshold is not changed by
rounding. -/
theorem Format.round_of_multiple (F : Format) (q : ℚ) (m : ℤ)
    (hm : q = (m : ℚ) * (2 : ℚ) ^ (max (Int.log 2 |q|) F.emin - ((F.prec : ℤ) - 1)))
    (hov : |q| < (2 : ℚ) ^ (F.emax + 1)) : F.round q = .fin q := by
  unfold Format.round
  by_cases h0 : q = 0
  · simp [h0]
  · have hk : (2 : ℚ) ^ (max (Int.log 2 |q|) F.emin - ((F.prec : ℤ) - 1)) ≠ 0 :=
      zpow_ne_zero _ (by norm_num)
    have hdiv : q / (2 : ℚ) ^ (max (Int.log 2 |q|) F.emin - ((F.prec : ℤ) - 1)) = (m : ℚ) := by
      rw [div_eq_iff hk]
      exact hm
    rw [if_neg h0, hdiv, roundHalfEven_intCast, ← hm, if_neg (not_le.mpr hov)]

/-- Evaluation of the rounding at a number with known exponent `e` that is a multiple of
its quantum. -/
theorem Format.round_of_exact (F : Format) (q : ℚ) (e m : ℤ)
    (h1 : (2 : ℚ) ^ e ≤ |q|) (h2 : |q| < (2 : ℚ) ^ (e + 1))
    (hm : q = (m : ℚ) * (2 : ℚ) ^ (max e F.emin - ((F.prec : ℤ) - 1)))
    (hov : |q| < (2 : ℚ) ^ (F.emax + 1)) : F.round q = .fin q := by
  apply F.round_of_multiple q m _ hov
  rw [log_eq_of_bounds q e h1 h2]
  exact hm

/-- A finite rounding of a number `≥ 0` is `≥ 0`. -/
theorem Format.round_nonneg (F : Format) (q r : ℚ) (hq : 0 ≤ q) (h : F.round q = .fin r) :
    0 ≤ r := by
  unfold Format.round at h
  split_ifs at h with h0 h1
  · cases h
    exact le_refl _
  · cases h
    have hk : (0 : ℚ) ≤ (2 : ℚ) ^ (max (Int.log 2 |q|) F.emin - ((F.prec : ℤ) - 1)) := by
      positivity
    have hr := roundHalfEven_nonneg _ (div_nonneg hq hk)
    exact mul_nonneg (by exact_mod_cast hr) hk

theorem Format.roundVal_eq_fin (F : Format) (x : FloatVal) (q : ℚ)
    (h : F.roundVal x = .fin q) : ∃ r, x = .fin r ∧ F.round r = .fin q := by
  cases x with
  | fin r => exact ⟨r, rfl, h⟩
  | pinf => cases h
  | ninf => cases h
  | nan => cases h

theorem interpolate_comm (a b : ℚ) : interpolate a b = interpolate b a := by
  unfold interpolate
  rw [add_comm]

/-- A finite interpolation of two numbers `≥ 0` is `≥ 0`. -/
theorem interpolate_nonneg (a b q : ℚ) (ha : 0 ≤ a) (hb : 0 ≤ b)
    (h : interpolate a b = .fin q) : 0 ≤ q := by
  unfold interpolate at h
  obtain ⟨r2, h2, h3⟩ := binary32.roundVal_eq_fin _ _ h
  obtain ⟨r1, h1, h4⟩ := binary64.roundVal_eq_fin _ _ h2
  cases hs : binary32.round (a + b) with
  | fin s =>
    rw [hs] at h1
    have hs0 : 0 ≤ s := binary32.round_nonneg _ _ (add_nonneg ha hb) hs
    have hr1 : r1 = 1 / 2 * s := by
      have : FloatVal.fin (1 / 2 * s) = FloatVal.fin r1 := h1
      exact (FloatVal.fin.inj this).symm
    have hr1' : 0 ≤ r1 := by rw [hr1]; positivity
    exact binary32.round_nonneg _ _ (binary64.round_nonneg _ _ hr1' h4) h3
  | pinf =>
    rw [hs] at h1
    have : FloatVal.infTimes true (1 / 2) = FloatVal.fin r1 := h1
    simp [FloatVal.infTimes] at this
  | ninf =>
    rw [hs] at h1
    have : FloatVal.infTimes false (1 / 2) = FloatVal.fin r1 := h1
    simp [FloatVal.infTimes] at this
  | nan =>
    rw [hs] at h1
    cases h1

theorem zpow_log_le_abs (q : ℚ) (h0 : q ≠ 0) : (2 : ℚ) ^ Int.log 2 |q| ≤ |q| := by
  have h := Int.zpow_log_le_self (b := 2) (r := |q|) (by norm_num) (abs_pos.mpr h0)
  exact_mod_cast h

theorem abs_lt_zpow_log_succ (q : ℚ) : |q| < (2 : ℚ) ^ (Int.log 2 |q| + 1) := by
  have h := Int.lt_zpow_succ_log_self (b := 2) (by norm_num) |q|
  exact_mod_cast h

theorem log_double (c : ℚ) (h0 : c ≠ 0) : Int.log 2 |c + c| = Int.log 2 |c| + 1 := by
  have habs : |c + c| = 2 * |c| := by
    rw [← two_mul, abs_mul]
    norm_num
  apply log_eq_of_bounds
  · rw [habs, zpow_add_one₀ (by norm_num : (2 : ℚ) ≠ 0)]
    have := zpow_log_le_abs c h0
    linarith
  · rw [habs, zpow_add_one₀ (by norm_num : (2 : ℚ) ≠ 0)]
    have := abs_lt_zpow_log_succ c
    linarith

/-- A number that rounding leaves unchanged is a multiple of its quantum. -/
theorem Format.multiple_of_round (F : Format) (c : ℚ) (h : F.round c = .fin c) :
    ∃ m : ℤ, c = (m : ℚ) * (2 : ℚ) ^ (max (Int.log 2 |c|) F.emin - ((F.prec : ℤ) - 1)) := by
  unfold Format.round at h
  split_ifs at h with h0 h1
  · exact ⟨0, by simp [h0]⟩
  · exact ⟨_, (FloatVal.fin.inj h).symm⟩

/-- The interpolation of a float32 number with itself returns the number, when the sum
does not overflow. -/
theorem interpolate_self (c : ℚ) (hc : binary32.round c = .fin c)
    (hb : |c| < (2 : ℚ) ^ (127 : ℤ)) : interpolate c c = .fin c := by
  obtain ⟨m, hm⟩ := binary32.multiple_of_round c hc
  have h2ne : (2 : ℚ) ≠ 0 := by norm_num
  have hsum : binary32.round (c + c) = .fin (c + c) := by
    have hov : |c + c| < (2 : ℚ) ^ (binary32.emax + 1) := by
      have habs : |c + c| = 2 * |c| := by
        rw [← two_mul, abs_mul]
        norm_num
      rw [habs]
      have : (2 : ℚ) ^ (binary32.emax + 1) = 2 * (2 : ℚ) ^ (127 : ℤ) := by
        show (2 : ℚ) ^ ((127 : ℤ) + 1) = _
        rw [zpow_add_one₀ h2ne]
        ring
      rw [this]
      linarith
    by_cases h0 : c = 0
    · exact binary32.round_of_multiple _ 0 (by simp [h0]) hov
    · by_cases hL : binary32.emin ≤ Int.log 2 |c|
      · refine binary32.round_of_multiple _ m ?_ hov
        rw [log_double c h0]
        have e1 : max (Int.log 2 |c| + 1) binary32.emin = max (Int.log 2 |c|) binary32.emin + 1 := by
          rw [max_eq_left hL, max_eq_left (by omega)]
        rw [e1, show max (Int.log 2 |c|) binary32.emin + 1 - ((binary32.prec : ℤ) - 1)
          = (max (Int.log 2 |c|) binary32.emin - ((binary32.prec : ℤ) - 1)) + 1 by ring,
          zpow_add_one₀ h2ne]
        nth_rewrite 1 [hm]
        nth_rewrite 2 [hm]
        ring
      · refine binary32.round_of_multiple _ (2 * m) ?_ hov
        rw [log_double c h0]
        have e1 : max (Int.log 2 |c| + 1) binary32.emin = max (Int.log 2 |c|) binary32.emin := by
          rw [max_eq_right (by omega), max_eq_right (by omega)]
        rw [e1]
        push_cast
        nth_rewrite 1 [hm]
        nth_rewrite 2 [hm]
        ring
  have h64 : binary64.round c = .fin c := by
    have hov : |c| < (2 : ℚ) ^ (binary64.emax + 1) := by
      have : (2 : ℚ) ^ (127 : ℤ) ≤ (2 : ℚ) ^ (binary64.emax + 1) :=
        zpow_le_zpow_right₀ (by norm_num) (by show (127 : ℤ) ≤ 1023 + 1; norm_num)
      linarith
    have hd : 0 ≤ (max (Int.log 2 |c|) binary32.emin - ((binary32.prec : ℤ) - 1))
        - (max (Int.log 2 |c|) binary64.emin - ((binary64.prec : ℤ) - 1)) := by
      have h1 : binary32.emin = -126 := rfl
      have h2 : binary64.emin = -1022 := rfl
      have h3 : (binary32.prec : ℤ) = 24 := rfl
      have h4 : (binary64.prec : ℤ) = 53 := rfl
      rw [h1, h2, h3, h4]
      omega
    obtain ⟨n, hn⟩ := Int.eq_ofNat_of_zero_le hd
    refine binary64.round_of_multiple c (m * 2 ^ n) ?_ hov
    have hk : (max (Int.log 2 |c|) binary32.emin - ((binary32.prec : ℤ) - 1))
        = (n : ℤ) + (max (Int.log 2 |c|) binary64.emin - ((binary64.prec : ℤ) - 1)) := by
      omega
    nth_rewrite 1 [hm]
    rw [hk, zpow_add₀ h2ne, zpow_natCast]
    push_cast
    ring
  unfold interpolate
  rw [hsum]
  have hmul : (FloatVal.fin (1 / 2) * FloatVal.fin (c + c)) = FloatVal.fin c := by
    show FloatVal.fin (1 / 2 * (c + c)) = FloatVal.fin c
    congr 1
    ring
  rw [hmul]
  show binary32.roundVal (binary64.round c) = FloatVal.fin c
  rw [h64]
  exact hc

/-- The interpolation of `2^127` with itself overflows: the float32 sum is `+inf`. -/
theorem interpolate_overflow : interpolate (2 ^ 127) (2 ^ 127) = .pinf := by
  have hl : Int.log 2 |((2 : ℚ) ^ 127 + 2 ^ 127)| = 128 :=
    log_eq_of_bounds _ _ (by norm_num) (by norm_num)
  have h1 : binary32.round (2 ^ 127 + 2 ^ 127) = .pinf := by
    simp only [Format.round, binary32, hl]
    norm_num [roundHalfEven]
  have hmul : (FloatVal.fin (1 / 2) * FloatVal.pinf) = FloatVal.pinf := by
    show FloatVal.infTimes true (1 / 2) = FloatVal.pinf
    norm_num [FloatVal.infTimes]
  unfold interpolate
  rw [h1, hmul]
  rfl

theorem round32_two : binary32.round 2 = .fin 2 :=
  binary32.round_of_exact 2 1 8388608 (by norm_num) (by norm_num) (by norm_num [binary32])
    (by norm_num [binary32])

theorem round32_pow127 : binary32.round (2 ^ 127) = .fin (2 ^ 127) :=
  binary32.round_of_exact (2 ^ 127) 127 8388608 (by norm_num) (by norm_num)
    (by norm_num [binary32]) (by norm_num [binary32])

end ieee

namespace opdet

open ieee

/-! ## Lemmas -/

section lemmas

variable (hc : FlashHypothesisCalculator) (geom : Geometry) (pvs : PhotonVisibilityService)
  (larp : LArProperties) (opdigip : OpDigiProperties) (XOffset : ℚ)

theorem zipWith_zeros_left (l : List FloatVal) :
    List.zipWith (· + ·) (List.replicate l.length (0 : FloatVal)) l = l := by
  induction l with
  | nil => rfl
  | cons a t ih => simp [List.replicate_succ, ih, FloatVal.fzero_add]

theorem zipWith_zeros_right (l : List FloatVal) :
    List.zipWith (· + ·) l (List.replicate l.length (0 : FloatVal)) = l := by
  induction l with
  | nil => rfl
  | cons a t ih => simp [List.replicate_succ, ih, FloatVal.fadd_zero]

theorem getD_zipWith_add (a b : List FloatVal) (h : a.length = b.length) (d : Nat) :
    (List.zipWith (· + ·) a b).getD d 0 = a.getD d 0 + b.getD d 0 := by
  induction a generalizing b d with
  | nil =>
    cases b with
    | nil => simp [FloatVal.fadd_zero]
    | cons _ _ => simp at h
  | cons x xs ih =>
    cases b with
    | nil => simp at h
    | cons y ys =>
      cases d with
      | zero => simp
      | succ d => simpa using ih ys (by simpa using h) d

theorem getD_zeros (N d : Nat) : (FlashHypothesis.zeros N).getD d 0 = 0 := by
  unfold FlashHypothesis.zeros
  by_cases h : d < N
  · simp [List.getD_eq_getElem?_getD, List.getElem?_replicate, h]
  · simp [List.getD_eq_getElem?_getD, List.getElem?_replicate, h]

theorem wellSized_empty (N : Nat) : (FlashHypothesisCollection.empty N).WellSized N := by
  simp [FlashHypothesisCollection.WellSized, FlashHypothesisCollection.empty,
    FlashHypothesis.zeros]

theorem add_wellSized {N : Nat} {a b : FlashHypothesisCollection}
    (ha : a.WellSized N) (hb : b.WellSized N) :
    ∃ c, a.add b = .ok c ∧ c.WellSized N ∧
      c.prompt = List.zipWith (· + ·) a.prompt b.prompt ∧
      c.late = List.zipWith (· + ·) a.late b.late ∧
      c.total = List.zipWith (· + ·) a.total b.total := by
  obtain ⟨ha1, ha2, ha3⟩ := ha
  obtain ⟨hb1, hb2, hb3⟩ := hb
  refine ⟨⟨List.zipWith (· + ·) a.prompt b.prompt, List.zipWith (· + ·) a.late b.late,
    List.zipWith (· + ·) a.total b.total⟩, ?_, ?_, rfl, rfl, rfl⟩
  · simp [FlashHypothesisCollection.add, FlashHypothesisCollection.detectorCount, ha1, hb1]
  · simp [FlashHypothesisCollection.WellSized, ha1, ha2, ha3, hb1, hb2, hb3]

theorem empty_add {N : Nat} {b : FlashHypothesisCollection} (hb : b.WellSized N) :
    (FlashHypothesisCollection.empty N).add b = .ok b := by
  obtain ⟨hb1, hb2, hb3⟩ := hb
  subst hb1
  have h2 := zipWith_zeros_left b.late
  have h3 := zipWith_zeros_left b.total
  rw [hb2] at h2
  rw [hb3] at h3
  simp [FlashHypothesisCollection.add, FlashHypothesisCollection.detectorCount,
    FlashHypothesisCollection.empty, FlashHypothesis.zeros, zipWith_zeros_left, h2, h3]

theorem add_empty {N : Nat} {a : FlashHypothesisCollection} (ha : a.WellSized N) :
    a.add (FlashHypothesisCollection.empty N) = .ok a := by
  obtain ⟨ha1, ha2, ha3⟩ := ha
  subst ha1
  have h2 := zipWith_zeros_right a.late
  have h3 := zipWith_zeros_right a.total
  rw [ha2] at h2
  rw [ha3] at h3
  simp [FlashHypothesisCollection.add, FlashHypothesisCollection.detectorCount,
    FlashHypothesisCollection.empty, FlashHypothesis.zeros, zipWith_zeros_right, h2, h3]

/-- Outside the visibility domain a segment yields the empty Collection. -/
theorem create_outside (pt1 pt2 : TVector3) (dEdx : FloatVal)
    (h : (segmentVisibility hc pvs XOffset pt1 pt2).length ≠ geom.NOpDets) :
    CreateFlashHypothesesFromSegment hc pt1 pt2 dEdx geom pvs larp opdigip XOffset
      = .ok (FlashHypothesisCollection.empty geom.NOpDets) := by
  unfold segmentVisibility at h
  simp [CreateFlashHypothesesFromSegment, h]

/-- Inside the domain a non-positive prompt fraction is the configuration error. -/
theorem create_inside_nonpos (pt1 pt2 : TVector3) (dEdx : FloatVal)
    (h : (segmentVisibility hc pvs XOffset pt1 pt2).length = geom.NOpDets)
    (hf : larp.ScintYieldRatio ≤ 0) :
    CreateFlashHypothesesFromSegment hc pt1 pt2 dEdx geom pvs larp opdigip XOffset
      = .error .configuration := by
  unfold segmentVisibility at h
  simp [CreateFlashHypothesesFromSegment, h,
    FlashHypothesisCollection.SetPromptHypAndPromptFraction, hf]

/-- Inside the domain, with a positive prompt fraction, a segment yields its finalized
prompt vector. -/
theorem create_inside_pos (pt1 pt2 : TVector3) (dEdx : FloatVal)
    (h : (segmentVisibility hc pvs XOffset pt1 pt2).length = geom.NOpDets)
    (hf : 0 < larp.ScintYieldRatio) :
    CreateFlashHypothesesFromSegment hc pt1 pt2 dEdx geom pvs larp opdigip XOffset
      = .ok ⟨segmentPrompt hc geom pvs larp opdigip XOffset pt1 pt2 dEdx,
          (segmentPrompt hc geom pvs larp opdigip XOffset pt1 pt2 dEdx).map
            (fun p => p / FloatVal.fin larp.ScintYieldRatio - p),
          (segmentPrompt hc geom pvs larp opdigip XOffset pt1 pt2 dEdx).map
            (fun p => p / FloatVal.fin larp.ScintYieldRatio)⟩ := by
  unfold segmentVisibility at h
  have hq : ∀ d ∈ List.range geom.NOpDets,
      (List.replicate geom.NOpDets opdigip.QE).getD d 0 = opdigip.QE := by
    intro d hd
    have hd' : d < geom.NOpDets := List.mem_range.mp hd
    simp [List.getD_eq_getElem?_getD, List.getElem?_replicate, hd']
  have hfill : hc.FillFlashHypothesis (larp.ScintYield * larp.ScintYieldRatio) dEdx pt1 pt2
      (List.replicate geom.NOpDets opdigip.QE)
      (pvs.GetAllVisibilities (hc.SegmentMidpoint pt1 pt2 XOffset))
      (FlashHypothesis.zeros geom.NOpDets)
      = segmentPrompt hc geom pvs larp opdigip XOffset pt1 pt2 dEdx := by
    unfold FlashHypothesisCalculator.FillFlashHypothesis segmentPrompt segmentVisibility
    simp only [FlashHypothesis.zeros, List.length_replicate]
    apply List.map_congr_left
    intro d hd
    rw [hq d hd]
  simp only [CreateFlashHypothesesFromSegment, h, ne_eq, not_true_eq_false, if_false, hfill,
    FlashHypothesisCollection.SetPromptHypAndPromptFraction, not_le.mpr hf]

theorem segmentLoop_cons (locationAt : Nat → TVector3) (dEdxVector : List ℚ)
    (interp : Bool) (pt : Nat) (pts : List Nat) (fhc : FlashHypothesisCollection) :
    segmentLoop hc locationAt dEdxVector interp geom pvs larp opdigip XOffset (pt :: pts) fhc
      = match CreateFlashHypothesesFromSegment hc (locationAt (pt - 1)) (locationAt pt)
            (segmentdEdx dEdxVector interp pt) geom pvs larp opdigip XOffset with
        | .error e => .error e
        | .ok s =>
          match fhc.add s with
          | .error e => .error e
          | .ok fhc' =>
            segmentLoop hc locationAt dEdxVector interp geom pvs larp opdigip XOffset
              pts fhc' := by
  cases interp <;> simp [segmentLoop, segmentdEdx]

theorem segmentCollection_wellSized (locationAt : Nat → TVector3) (dEdxVector : List ℚ)
    (interp : Bool) (pt : Nat) :
    (segmentCollection hc geom pvs larp opdigip XOffset locationAt dEdxVector interp
      pt).WellSized geom.NOpDets := by
  unfold segmentCollection
  split
  · simp [FlashHypothesisCollection.WellSized, segmentPrompt]
  · exact wellSized_empty _

theorem plus_wellSized {N : Nat} {a b : FlashHypothesisCollection}
    (ha : a.WellSized N) (hb : b.WellSized N) : (a.plus b).WellSized N := by
  obtain ⟨ha1, ha2, ha3⟩ := ha
  obtain ⟨hb1, hb2, hb3⟩ := hb
  simp [FlashHypothesisCollection.WellSized, FlashHypothesisCollection.plus,
    ha1, ha2, ha3, hb1, hb2, hb3]

theorem add_eq_plus {N : Nat} {a b : FlashHypothesisCollection}
    (ha : a.WellSized N) (hb : b.WellSized N) : a.add b = .ok (a.plus b) := by
  simp [FlashHypothesisCollection.add, FlashHypothesisCollection.detectorCount,
    FlashHypothesisCollection.plus, ha.1, hb.1]

/-- When no error is raised a segment yields `segmentCollection`. -/
theorem create_eq_segmentCollection (locationAt : Nat → TVector3) (dEdxVector : List ℚ)
    (interp : Bool) (pt : Nat)
    (h : 0 < larp.ScintYieldRatio
      ∨ segmentInDomain hc geom pvs XOffset locationAt pt = false) :
    CreateFlashHypothesesFromSegment hc (locationAt (pt - 1)) (locationAt pt)
        (segmentdEdx dEdxVector interp pt) geom pvs larp opdigip XOffset
      = .ok (segmentCollection hc geom pvs larp opdigip XOffset locationAt dEdxVector
          interp pt) := by
  by_cases hin : (segmentVisibility hc pvs XOffset (locationAt (pt - 1))
      (locationAt pt)).length = geom.NOpDets
  · have hpos : 0 < larp.ScintYieldRatio := by
      rcases h with h | h
      · exact h
      · simp [segmentInDomain, hin] at h
    rw [create_inside_pos hc geom pvs larp opdigip XOffset _ _ _ hin hpos]
    simp [segmentCollection, segmentInDomain, hin]
  · rw [create_outside hc geom pvs larp opdigip XOffset _ _ _ hin]
    simp [segmentCollection, segmentInDomain, hin]

/-- Closed form of the loop when no segment raises the configuration error. -/
theorem segmentLoop_eq_foldl (locationAt : Nat → TVector3) (dEdxVector : List ℚ)
    (interp : Bool) (pts : List Nat) (fhc : FlashHypothesisCollection)
    (hfhc : fhc.WellSized geom.NOpDets)
    (h : 0 < larp.ScintYieldRatio
      ∨ ∀ pt ∈ pts, segmentInDomain hc geom pvs XOffset locationAt pt = false) :
    segmentLoop hc locationAt dEdxVector interp geom pvs larp opdigip XOffset pts fhc
      = .ok (pts.foldl (fun acc pt => acc.plus
          (segmentCollection hc geom pvs larp opdigip XOffset locationAt dEdxVector interp
            pt)) fhc) := by
  induction pts generalizing fhc with
  | nil => rfl
  | cons pt pts ih =>
    have hpt : 0 < larp.ScintYieldRatio
        ∨ segmentInDomain hc geom pvs XOffset locationAt pt = false := by
      rcases h with h | h
      · exact Or.inl h
      · exact Or.inr (h pt (List.mem_cons_self _ _))
    have hrest : 0 < larp.ScintYieldRatio
        ∨ ∀ q ∈ pts, segmentInDomain hc geom pvs XOffset locationAt q = false := by
      rcases h with h | h
      · exact Or.inl h
      · exact Or.inr (fun q hq => h q (List.mem_cons_of_mem _ hq))
    have hs := segmentCollection_wellSized hc geom pvs larp opdigip XOffset locationAt
      dEdxVector interp pt
    rw [segmentLoop_cons, create_eq_segmentCollection hc geom pvs larp opdigip XOffset
      locationAt dEdxVector interp pt hpt]
    simp only [add_eq_plus hfhc hs, List.foldl_cons]
    exact ih _ (plus_wellSized hfhc hs) hrest

/-- With a non-positive prompt fraction the loop raises the configuration error as soon
as one segment lies inside the visibility domain. -/
theorem segmentLoop_configuration (locationAt : Nat → TVector3) (dEdxVector : List ℚ)
    (interp : Bool) (pts : List Nat) (fhc : FlashHypothesisCollection)
    (hfhc : fhc.WellSized geom.NOpDets) (hf : larp.ScintYieldRatio ≤ 0)
    (h : ∃ pt ∈ pts, segmentInDomain hc geom pvs XOffset locationAt pt = true) :
    segmentLoop hc locationAt dEdxVector interp geom pvs larp opdigip XOffset pts fhc
      = .error .configuration := by
  induction pts generalizing fhc with
  | nil => simp at h
  | cons pt pts ih =>
    rw [segmentLoop_cons]
    by_cases hin : (segmentVisibility hc pvs XOffset (locationAt (pt - 1))
        (locationAt pt)).length = geom.NOpDets
    · rw [create_inside_nonpos hc geom pvs larp opdigip XOffset _ _ _ hin hf]
    · rw [create_outside hc geom pvs larp opdigip XOffset _ _ _ hin]
      simp only [add_empty hfhc]
      apply ih _ hfhc
      obtain ⟨q, hq, hqin⟩ := h
      rcases List.mem_cons.mp hq with rfl | hq
      · simp [segmentInDomain, hin] at hqin
      · exact ⟨q, hq, hqin⟩

/-! ### The three multi-point overloads share one body -/

theorem trajVector_eq_multiPoint (trajVector : List TVector3) (dEdxVector : List ℚ) :
    GetFlashHypothesisCollection_trajVector hc trajVector dEdxVector geom pvs larp opdigip
        XOffset
      = multiPointOverload hc geom pvs larp opdigip XOffset trajVector.length
          (fun pt => trajVector.getD pt ⟨0, 0, 0⟩)
          "ERROR in FlashHypothesisCreator: dEdx vector size not compatible with trajVector size."
          dEdxVector := rfl

theorem track_eq_multiPoint (track : Track) (dEdxVector : List ℚ) :
    GetFlashHypothesisCollection_track hc track dEdxVector geom pvs larp opdigip XOffset
      = multiPointOverload hc geom pvs larp opdigip XOffset track.NumberTrajectoryPoints
          track.LocationAtPoint
          "ERROR in FlashHypothesisCreator: dEdx vector size not compatible with track size."
          dEdxVector := rfl

theorem mctrack_eq_multiPoint (mctrack : MCTrack) (dEdxVector : List ℚ) :
    GetFlashHypothesisCollection_mctrack hc mctrack dEdxVector geom pvs larp opdigip XOffset
      = multiPointOverload hc geom pvs larp opdigip XOffset mctrack.length
          (fun pt => (mctrack.at pt).Position.Vect)
          "ERROR in FlashHypothesisCreator: dEdx vector size not compatible with mctrack size."
          dEdxVector := rfl

/-- The interpolation flag chosen by a shape-valid call. -/
theorem multiPoint_valid (size : Nat) (locationAt : Nat → TVector3) (what : String)
    (dEdxVector : List ℚ)
    (hshape : dEdxVector.length = size ∨ dEdxVector.length + 1 = size) :
    multiPointOverload hc geom pvs larp opdigip XOffset size locationAt what dEdxVector
      = segmentLoop hc locationAt dEdxVector (decide (dEdxVector.length = size)) geom pvs
          larp opdigip XOffset (List.range' 1 (size - 1))
          (FlashHypothesisCollection.empty geom.NOpDets) := by
  unfold multiPointOverload
  rcases hshape with h | h
  · simp [h]
  · have hne : ¬ size = dEdxVector.length := by omega
    have hne' : ¬ dEdxVector.length = size := by omega
    simp [hne, hne', h.symm]

theorem multiPoint_invalid (size : Nat) (locationAt : Nat → TVector3) (what : String)
    (dEdxVector : List ℚ)
    (hshape : ¬ (dEdxVector.length = size ∨ dEdxVector.length + 1 = size)) :
    multiPointOverload hc geom pvs larp opdigip XOffset size locationAt what dEdxVector
      = .error (.inputShape what) := by
  unfold multiPointOverload
  have h1 : ¬ size = dEdxVector.length := fun h => hshape (Or.inl h.symm)
  have h2 : ¬ size = dEdxVector.length + 1 := fun h => hshape (Or.inr h.symm)
  simp [h1, h2]

/-- Outcome of a multi-point overload, in all cases. -/
theorem multiPoint_outcome (size : Nat) (locationAt : Nat → TVector3) (what : String)
    (dEdxVector : List ℚ) :
    (isInputShapeError (multiPointOverload hc geom pvs larp opdigip XOffset size locationAt
        what dEdxVector) = true
      ↔ ¬ (dEdxVector.length = size ∨ dEdxVector.length + 1 = size))
    ∧ (isCollection (multiPointOverload hc geom pvs larp opdigip XOffset size locationAt
        what dEdxVector) = true
      ↔ (dEdxVector.length = size ∨ dEdxVector.length + 1 = size)
        ∧ (0 < larp.ScintYieldRatio
          ∨ ∀ pt, 1 ≤ pt → pt < size →
              segmentInDomain hc geom pvs XOffset locationAt pt = false)) := by
  by_cases hshape : dEdxVector.length = size ∨ dEdxVector.length + 1 = size
  · rw [multiPoint_valid hc geom pvs larp opdigip XOffset size locationAt what dEdxVector
      hshape]
    by_cases hok : 0 < larp.ScintYieldRatio
        ∨ ∀ pt ∈ List.range' 1 (size - 1),
            segmentInDomain hc geom pvs XOffset locationAt pt = false
    · rw [segmentLoop_eq_foldl hc geom pvs larp opdigip XOffset locationAt dEdxVector _ _ _
        (wellSized_empty _) hok]
      refine ⟨by simp [isInputShapeError, hshape], ?_⟩
      simp only [isCollection, true_iff]
      refine ⟨hshape, ?_⟩
      rcases hok with h | h
      · exact Or.inl h
      · refine Or.inr (fun pt h1 h2 => h pt ?_)
        rw [List.mem_range'_1]
        omega
    · have hf : larp.ScintYieldRatio ≤ 0 := by
        by_contra hc'
        exact hok (Or.inl (not_le.mp hc'))
      have hex : ∃ pt ∈ List.range' 1 (size - 1),
          segmentInDomain hc geom pvs XOffset locationAt pt = true := by
        by_contra hne
        apply hok
        right
        intro pt hpt
        by_contra hpt'
        exact hne ⟨pt, hpt, by simpa using hpt'⟩
      rw [segmentLoop_configuration hc geom pvs larp opdigip XOffset locationAt dEdxVector _
        _ _ (wellSized_empty _) hf hex]
      refine ⟨by simp [isInputShapeError, hshape], ?_⟩
      simp only [isCollection, Bool.false_eq_true, false_iff, not_and, not_or, not_lt]
      intro _
      refine ⟨hf, ?_⟩
      obtain ⟨pt, hpt, hin⟩ := hex
      rw [List.mem_range'_1] at hpt
      intro hall
      have := hall pt hpt.1 (by omega)
      rw [hin] at this
      exact Bool.noConfusion this
  · rw [multiPoint_invalid hc geom pvs larp opdigip XOffset size locationAt what dEdxVector
      hshape]
    simp [isInputShapeError, isCollection, hshape]

theorem isCollection_iff (r : Except Error FlashHypothesisCollection) :
    isCollection r = true ↔ ∃ c, r = .ok c := by
  cases r <;> simp [isCollection]

theorem isInputShapeError_iff (r : Except Error FlashHypothesisCollection) :
    isInputShapeError r = true ↔ ∃ m, r = .error (.inputShape m) := by
  rcases r with e | c
  · cases e <;> simp [isInputShapeError]
  · simp [isInputShapeError]

/-- Length-validation law for the common body of the multi-point overloads. -/
theorem multiPoint_validation (size : Nat) (locationAt : Nat → TVector3) (what : String)
    (dEdxVector : List ℚ) :
    ((∃ c, multiPointOverload hc geom pvs larp opdigip XOffset size locationAt what
          dEdxVector = .ok c)
      ↔ (dEdxVector.length = size ∨ dEdxVector.length + 1 = size)
        ∧ (0 < larp.ScintYieldRatio
          ∨ ∀ pt, 1 ≤ pt → pt < size →
              segmentInDomain hc geom pvs XOffset locationAt pt = false))
    ∧ ((∃ m, multiPointOverload hc geom pvs larp opdigip XOffset size locationAt what
          dEdxVector = .error (.inputShape m))
      ↔ ¬ (dEdxVector.length = size ∨ dEdxVector.length + 1 = size)) := by
  have h := multiPoint_outcome hc geom pvs larp opdigip XOffset size locationAt what
    dEdxVector
  rw [isCollection_iff, isInputShapeError_iff] at h
  exact ⟨h.2, h.1⟩

/-- The segment from the origin to `(0, 0, 10)` has length `10`. -/
theorem segmentLength_scenario :
    hc.segmentLength ⟨0, 0, 0⟩ ⟨0, 0, 10⟩ = 10 := by
  have h := hc.sqrt_mul_self 10 (by norm_num)
  unfold FlashHypothesisCalculator.segmentLength TVector3.sub TVector3.Mag2
  norm_num
  norm_num at h
  exact h

/-- The Collection of the worked scenario. -/
theorem create_scenario
    (hvis : pvs.GetAllVisibilities (hc.SegmentMidpoint ⟨0, 0, 0⟩ ⟨0, 0, 10⟩ XOffset)
      = [1 / 1000]) :
    CreateFlashHypothesesFromSegment hc ⟨0, 0, 0⟩ ⟨0, 0, 10⟩ 2 ⟨1⟩ pvs ⟨24000, 23 / 100⟩
        ⟨2 / 100⟩ XOffset
      = .ok ⟨[2208 / 1000], [7392 / 1000], [96 / 10]⟩ := by
  have hin : (segmentVisibility hc pvs XOffset ⟨0, 0, 0⟩ ⟨0, 0, 10⟩).length
      = (⟨1⟩ : Geometry).NOpDets := by
    simp [segmentVisibility, hvis]
  rw [create_inside_pos hc ⟨1⟩ pvs ⟨24000, 23 / 100⟩ ⟨2 / 100⟩ XOffset _ _ _ hin
    (by norm_num)]
  simp only [segmentPrompt, segmentVisibility, hvis, segmentLength_scenario]
  have e1 : (2 : FloatVal) = FloatVal.fin 2 := rfl
  have e2 : (2208 : FloatVal) = FloatVal.fin 2208 := rfl
  have e3 : (1000 : FloatVal) = FloatVal.fin 1000 := rfl
  have e4 : (7392 : FloatVal) = FloatVal.fin 7392 := rfl
  have e5 : (96 : FloatVal) = FloatVal.fin 96 := rfl
  have e6 : (10 : FloatVal) = FloatVal.fin 10 := rfl
  rw [e1, e2, e3, e4, e5, e6]
  norm_num [List.range_succ, FloatVal.fin_mul_fin, FloatVal.fin_div_fin, FloatVal.fin_sub_fin]

/-- A successful loop is the fold of the segment Collections, and then either the prompt
fraction is positive or no visited segment lies inside the visibility domain. -/
theorem segmentLoop_ok (locationAt : Nat → TVector3) (dEdxVector : List ℚ)
    (interp : Bool) (pts : List Nat) (fhc c : FlashHypothesisCollection)
    (hfhc : fhc.WellSized geom.NOpDets)
    (h : segmentLoop hc locationAt dEdxVector interp geom pvs larp opdigip XOffset pts fhc
      = .ok c) :
    c = pts.foldl (fun acc pt => acc.plus
          (segmentCollection hc geom pvs larp opdigip XOffset locationAt dEdxVector interp
            pt)) fhc
      ∧ (0 < larp.ScintYieldRatio
        ∨ ∀ pt ∈ pts, segmentInDomain hc geom pvs XOffset locationAt pt = false) := by
  by_cases hok : 0 < larp.ScintYieldRatio
      ∨ ∀ pt ∈ pts, segmentInDomain hc geom pvs XOffset locationAt pt = false
  · rw [segmentLoop_eq_foldl hc geom pvs larp opdigip XOffset locationAt dEdxVector interp
      pts fhc hfhc hok] at h
    exact ⟨(Except.ok.inj h).symm, hok⟩
  · have hf : larp.ScintYieldRatio ≤ 0 := by
      by_contra hc'
      exact hok (Or.inl (not_le.mp hc'))
    have hex : ∃ pt ∈ pts, segmentInDomain hc geom pvs XOffset locationAt pt = true := by
      by_contra hne
      apply hok
      right
      intro pt hpt
      by_contra hpt'
      exact hne ⟨pt, hpt, by simpa using hpt'⟩
    rw [segmentLoop_configuration hc geom pvs larp opdigip XOffset locationAt dEdxVector
      interp pts fhc hfhc hf hex] at h
    cases h

/-- The fold of well-sized Collections is well-sized. -/
theorem foldl_plus_wellSized {N : Nat} (g : Nat → FlashHypothesisCollection)
    (hg : ∀ pt, (g pt).WellSized N) (pts : List Nat) (fhc : FlashHypothesisCollection)
    (hfhc : fhc.WellSized N) :
    (pts.foldl (fun acc pt => acc.plus (g pt)) fhc).WellSized N := by
  induction pts generalizing fhc with
  | nil => exact hfhc
  | cons pt pts ih => exact ih _ (plus_wellSized hfhc (hg pt))

/-- The loop depends on the profile only through the energy loss handed to each
visited segment. -/
theorem segmentLoop_congr (locationAt : Nat → TVector3) (e1 e2 : List ℚ) (i1 i2 : Bool)
    (pts : List Nat) (fhc : FlashHypothesisCollection)
    (h : ∀ pt ∈ pts, segmentdEdx e1 i1 pt = segmentdEdx e2 i2 pt) :
    segmentLoop hc locationAt e1 i1 geom pvs larp opdigip XOffset pts fhc
      = segmentLoop hc locationAt e2 i2 geom pvs larp opdigip XOffset pts fhc := by
  induction pts generalizing fhc with
  | nil => rfl
  | cons pt pts ih =>
    rw [segmentLoop_cons, segmentLoop_cons, h pt (List.mem_cons_self _ _)]
    cases CreateFlashHypothesesFromSegment hc (locationAt (pt - 1)) (locationAt pt)
        (segmentdEdx e2 i2 pt) geom pvs larp opdigip XOffset with
    | error err => rfl
    | ok s =>
      dsimp only
      cases fhc.add s with
      | error err => rfl
      | ok fhc' => exact ih fhc' (fun q hq => h q (List.mem_cons_of_mem _ hq))

theorem getD_replicate_of_lt (n d : Nat) (c : ℚ) (hd : d < n) :
    (List.replicate n c).getD d 0 = c := by
  simp [List.getD_eq_getElem?_getD, List.getElem?_replicate, hd]

/-- A Collection returned for a segment has the detector count in all components. -/
theorem create_wellSized (pt1 pt2 : TVector3) (dEdx : FloatVal) (c : FlashHypothesisCollection)
    (h : CreateFlashHypothesesFromSegment hc pt1 pt2 dEdx geom pvs larp opdigip XOffset
      = .ok c) : c.WellSized geom.NOpDets := by
  by_cases hin : (segmentVisibility hc pvs XOffset pt1 pt2).length = geom.NOpDets
  · by_cases hf : 0 < larp.ScintYieldRatio
    · rw [create_inside_pos hc geom pvs larp opdigip XOffset _ _ _ hin hf] at h
      rw [← Except.ok.inj h]
      simp [FlashHypothesisCollection.WellSized, segmentPrompt]
    · rw [create_inside_nonpos hc geom pvs larp opdigip XOffset _ _ _ hin (not_lt.mp hf)]
        at h
      cases h
  · rw [create_outside hc geom pvs larp opdigip XOffset _ _ _ hin] at h
    rw [← Except.ok.inj h]
    exact wellSized_empty _

theorem consistent_empty (N : Nat) : (FlashHypothesisCollection.empty N).Consistent := by
  intro d
  simp only [FlashHypothesisCollection.empty, getD_zeros, FloatVal.fadd_zero]

/-- The vectors derived by finalize from finite prompt entries satisfy
`total = prompt + late`. -/
theorem getD_finalize (P : List FloatVal) (f : ℚ) (hP : ∀ p ∈ P, p.IsFinite) (d : Nat) :
    (P.map (fun p => p / FloatVal.fin f)).getD d 0
      = P.getD d 0 + (P.map (fun p => p / FloatVal.fin f - p)).getD d 0 := by
  induction P generalizing d with
  | nil => simp [FloatVal.fadd_zero]
  | cons a t ih =>
    cases d with
    | zero =>
      simp only [List.map_cons, List.getD_cons_zero]
      exact FloatVal.div_eq_add_sub a f (hP a (List.mem_cons_self _ _))
    | succ d =>
      simp only [List.map_cons, List.getD_cons_succ]
      exact ih (fun p hp => hP p (List.mem_cons_of_mem _ hp)) d

theorem consistent_plus {N : Nat} {a b : FlashHypothesisCollection}
    (ha : a.WellSized N) (hb : b.WellSized N) (ca : a.Consistent) (cb : b.Consistent) :
    (a.plus b).Consistent := by
  intro d
  obtain ⟨ha1, ha2, ha3⟩ := ha
  obtain ⟨hb1, hb2, hb3⟩ := hb
  simp only [FlashHypothesisCollection.plus]
  rw [getD_zipWith_add _ _ (by rw [ha3, hb3]), getD_zipWith_add _ _ (by rw [ha1, hb1]),
    getD_zipWith_add _ _ (by rw [ha2, hb2]), ca d, cb d]
  exact FloatVal.fadd_add_add_comm _ _ _ _

/-- A finite energy loss gives finite prompt entries. -/
theorem segmentPrompt_isFinite (pt1 pt2 : TVector3) (dEdx : FloatVal) (hd : dEdx.IsFinite) :
    ∀ p ∈ segmentPrompt hc geom pvs larp opdigip XOffset pt1 pt2 dEdx, p.IsFinite := by
  intro p hp
  unfold segmentPrompt at hp
  obtain ⟨i, -, rfl⟩ := List.mem_map.mp hp
  cases dEdx with
  | fin q => exact trivial
  | pinf => exact hd.elim
  | ninf => exact hd.elim
  | nan => exact hd.elim

theorem consistent_segmentCollection (locationAt : Nat → TVector3) (dEdxVector : List ℚ)
    (interp : Bool) (pt : Nat) (hfin : (segmentdEdx dEdxVector interp pt).IsFinite) :
    (segmentCollection hc geom pvs larp opdigip XOffset locationAt dEdxVector interp
      pt).Consistent := by
  unfold segmentCollection
  split
  · intro d
    exact getD_finalize _ _ (segmentPrompt_isFinite hc geom pvs larp opdigip XOffset _ _ _ hfin)
      d
  · exact consistent_empty _

theorem consistent_foldl {N : Nat} (g : Nat → FlashHypothesisCollection)
    (hg : ∀ pt, (g pt).WellSized N) (pts : List Nat) (cg : ∀ pt ∈ pts, (g pt).Consistent)
    (fhc : FlashHypothesisCollection) (hfhc : fhc.WellSized N) (cfhc : fhc.Consistent) :
    (pts.foldl (fun acc pt => acc.plus (g pt)) fhc).Consistent := by
  induction pts generalizing fhc with
  | nil => exact cfhc
  | cons pt pts ih =>
    exact ih (fun q hq => cg q (List.mem_cons_of_mem _ hq)) _ (plus_wellSized hfhc (hg pt))
      (consistent_plus hfhc (hg pt) cfhc (cg pt (List.mem_cons_self _ _)))

/-- Component consistency for the common body of the multi-point overloads, when the
energy loss handed to every segment is finite. -/
theorem multiPoint_consistent (size : Nat) (locationAt : Nat → TVector3) (what : String)
    (dEdxVector : List ℚ) (hf : 0 < larp.ScintYieldRatio)
    (hshape : dEdxVector.length = size ∨ dEdxVector.length + 1 = size)
    (hfin : ∀ pt, 1 ≤ pt → pt < size →
      (segmentdEdx dEdxVector (decide (dEdxVector.length = size)) pt).IsFinite) :
    ∃ c, multiPointOverload hc geom pvs larp opdigip XOffset size locationAt what dEdxVector
        = .ok c
      ∧ ∀ d, d < geom.NOpDets → c.total.getD d 0 = c.prompt.getD d 0 + c.late.getD d 0 := by
  rw [multiPoint_valid hc geom pvs larp opdigip XOffset _ _ _ _ hshape]
  refine ⟨_, segmentLoop_eq_foldl hc geom pvs larp opdigip XOffset _ _ _ _ _
    (wellSized_empty _) (Or.inl hf), fun d _ => ?_⟩
  refine consistent_foldl _
    (segmentCollection_wellSized hc geom pvs larp opdigip XOffset _ _ _) _ ?_ _
    (wellSized_empty _) (consistent_empty _) d
  intro pt hpt
  rw [List.mem_range'_1] at hpt
  exact consistent_segmentCollection hc geom pvs larp opdigip XOffset _ _ _ _
    (hfin pt hpt.1 (by omega))

/-- A Collection returned for a segment with a finite energy loss is consistent. -/
theorem create_consistent (pt1 pt2 : TVector3) (dEdx : FloatVal) (hd : dEdx.IsFinite)
    (c : FlashHypothesisCollection)
    (h : CreateFlashHypothesesFromSegment hc pt1 pt2 dEdx geom pvs larp opdigip XOffset
      = .ok c) : c.Consistent := by
  by_cases hin : (segmentVisibility hc pvs XOffset pt1 pt2).length = geom.NOpDets
  · by_cases hf : 0 < larp.ScintYieldRatio
    · rw [create_inside_pos hc geom pvs larp opdigip XOffset _ _ _ hin hf] at h
      rw [← Except.ok.inj h]
      intro d
      exact getD_finalize _ _
        (segmentPrompt_isFinite hc geom pvs larp opdigip XOffset _ _ _ hd) d
    · rw [create_inside_nonpos hc geom pvs larp opdigip XOffset _ _ _ hin (not_lt.mp hf)]
        at h
      cases h
  · rw [create_outside hc geom pvs larp opdigip XOffset _ _ _ hin] at h
    rw [← Except.ok.inj h]
    exact consistent_empty _

/-- With a positive prompt fraction a segment always yields a Collection. -/
theorem create_ok_of_pos (pt1 pt2 : TVector3) (dEdx : FloatVal) (hf : 0 < larp.ScintYieldRatio) :
    ∃ c, CreateFlashHypothesesFromSegment hc pt1 pt2 dEdx geom pvs larp opdigip XOffset
      = .ok c := by
  by_cases hin : (segmentVisibility hc pvs XOffset pt1 pt2).length = geom.NOpDets
  · exact ⟨_, create_inside_pos hc geom pvs larp opdigip XOffset _ _ _ hin hf⟩
  · exact ⟨_, create_outside hc geom pvs larp opdigip XOffset _ _ _ hin⟩

/-- Visiting only segments outside the visibility domain leaves the running Collection
unchanged. -/
theorem segmentLoop_outside (locationAt : Nat → TVector3) (dEdxVector : List ℚ)
    (interp : Bool) (pts : List Nat) (fhc : FlashHypothesisCollection)
    (hfhc : fhc.WellSized geom.NOpDets)
    (h : ∀ pt ∈ pts, segmentInDomain hc geom pvs XOffset locationAt pt = false) :
    segmentLoop hc locationAt dEdxVector interp geom pvs larp opdigip XOffset pts fhc
      = .ok fhc := by
  induction pts with
  | nil => rfl
  | cons pt pts ih =>
    have hin : (segmentVisibility hc pvs XOffset (locationAt (pt - 1))
        (locationAt pt)).length ≠ geom.NOpDets := by
      have := h pt (List.mem_cons_self _ _)
      simpa [segmentInDomain] using this
    rw [segmentLoop_cons, create_outside hc geom pvs larp opdigip XOffset _ _ _ hin]
    simp only [add_empty hfhc]
    exact ih (fun q hq => h q (List.mem_cons_of_mem _ hq))

theorem sameResult_refl (r : Except Error FlashHypothesisCollection) :
    sameResult r r = true := by
  rcases r with e | c
  · cases e <;> simp [sameResult]
  · simp [sameResult]

/-- The thrown literal does not change the kind of result. -/
theorem multiPoint_sameResult (size : Nat) (locationAt : Nat → TVector3)
    (what1 what2 : String) (dEdxVector : List ℚ) :
    sameResult
      (multiPointOverload hc geom pvs larp opdigip XOffset size locationAt what1 dEdxVector)
      (multiPointOverload hc geom pvs larp opdigip XOffset size locationAt what2 dEdxVector)
      = true := by
  by_cases hshape : dEdxVector.length = size ∨ dEdxVector.length + 1 = size
  · rw [multiPoint_valid hc geom pvs larp opdigip XOffset _ _ _ _ hshape,
      multiPoint_valid hc geom pvs larp opdigip XOffset _ _ _ _ hshape]
    exact sameResult_refl _
  · rw [multiPoint_invalid hc geom pvs larp opdigip XOffset _ _ _ _ hshape,
      multiPoint_invalid hc geom pvs larp opdigip XOffset _ _ _ _ hshape]
    rfl

/-- Point access of a simulated track is point access of its position sequence. -/
theorem mctrack_locationAt (mctrack : MCTrack) :
    (fun pt => (mctrack.at pt).Position.Vect)
      = fun pt => (mctrack.map (fun s => s.Position.Vect)).getD pt ⟨0, 0, 0⟩ := by
  funext pt
  unfold MCTrack.at
  induction mctrack generalizing pt with
  | nil => rfl
  | cons a t ih =>
    cases pt with
    | zero => rfl
    | succ pt => simpa using ih pt

/-- A Collection returned by the loop has the detector count in all components. -/
theorem segmentLoop_wellSized (locationAt : Nat → TVector3) (dEdxVector : List ℚ)
    (interp : Bool) (pts : List Nat) (fhc c : FlashHypothesisCollection)
    (hfhc : fhc.WellSized geom.NOpDets)
    (h : segmentLoop hc locationAt dEdxVector interp geom pvs larp opdigip XOffset pts fhc
      = .ok c) : c.WellSized geom.NOpDets := by
  obtain ⟨rfl, -⟩ := segmentLoop_ok hc geom pvs larp opdigip XOffset _ _ _ _ _ _ hfhc h
  exact foldl_plus_wellSized _
    (segmentCollection_wellSized hc geom pvs larp opdigip XOffset _ _ _) _ _ hfhc

/-- Output length for the common body of the multi-point overloads. -/
theorem multiPoint_wellSized (size : Nat) (locationAt : Nat → TVector3) (what : String)
    (dEdxVector : List ℚ) (c : FlashHypothesisCollection)
    (h : multiPointOverload hc geom pvs larp opdigip XOffset size locationAt what dEdxVector
      = .ok c) : c.WellSized geom.NOpDets := by
  by_cases hshape : dEdxVector.length = size ∨ dEdxVector.length + 1 = size
  · rw [multiPoint_valid hc geom pvs larp opdigip XOffset _ _ _ _ hshape] at h
    exact segmentLoop_wellSized hc geom pvs larp opdigip XOffset _ _ _ _ _ _
      (wellSized_empty _) h
  · rw [multiPoint_invalid hc geom pvs larp opdigip XOffset _ _ _ _ hshape] at h
    cases h

theorem getD_isFinNonneg_of_forall_mem (l : List FloatVal) (h : ∀ x ∈ l, x.IsFinNonneg)
    (d : Nat) : (l.getD d 0).IsFinNonneg := by
  induction l generalizing d with
  | nil => exact FloatVal.isFinNonneg_zero
  | cons a t ih =>
    cases d with
    | zero => exact h a (List.mem_cons_self _ _)
    | succ d => exact ih (fun x hx => h x (List.mem_cons_of_mem _ hx)) d

theorem getD_nonneg_of_forall_mem (l : List ℚ) (h : ∀ x ∈ l, 0 ≤ x) (d : Nat) :
    0 ≤ l.getD d 0 := by
  induction l generalizing d with
  | nil => simp
  | cons a t ih =>
    cases d with
    | zero => simpa using h a (List.mem_cons_self _ _)
    | succ d => simpa using ih (fun x hx => h x (List.mem_cons_of_mem _ hx)) d

theorem forall_mem_isFinNonneg_of_getD (l : List FloatVal)
    (h : ∀ d, (l.getD d 0).IsFinNonneg) : ∀ x ∈ l, x.IsFinNonneg := by
  induction l with
  | nil => intro x hx; cases hx
  | cons a t ih =>
    intro x hx
    rcases List.mem_cons.mp hx with rfl | hx
    · exact h 0
    · exact ih (fun d => h (d + 1)) x hx

theorem getD_map_of_zero (g : FloatVal → FloatVal) (hg : g 0 = 0) (l : List FloatVal)
    (d : Nat) : (l.map g).getD d 0 = g (l.getD d 0) := by
  induction l generalizing d with
  | nil => simp [hg]
  | cons a t ih =>
    cases d with
    | zero => simp
    | succ d => simpa using ih d

theorem nonneg_empty (N : Nat) : (FlashHypothesisCollection.empty N).Nonneg := by
  intro d
  simp only [FlashHypothesisCollection.empty, getD_zeros]
  exact ⟨FloatVal.isFinNonneg_zero, FloatVal.isFinNonneg_zero, FloatVal.isFinNonneg_zero⟩

theorem nonneg_plus {N : Nat} {a b : FlashHypothesisCollection}
    (ha : a.WellSized N) (hb : b.WellSized N) (na : a.Nonneg) (nb : b.Nonneg) :
    (a.plus b).Nonneg := by
  intro d
  obtain ⟨ha1, ha2, ha3⟩ := ha
  obtain ⟨hb1, hb2, hb3⟩ := hb
  obtain ⟨a1, a2, a3⟩ := na d
  obtain ⟨b1, b2, b3⟩ := nb d
  simp only [FlashHypothesisCollection.plus]
  rw [getD_zipWith_add _ _ (by rw [ha1, hb1]), getD_zipWith_add _ _ (by rw [ha2, hb2]),
    getD_zipWith_add _ _ (by rw [ha3, hb3])]
  exact ⟨FloatVal.isFinNonneg_add _ _ a1 b1, FloatVal.isFinNonneg_add _ _ a2 b2,
    FloatVal.isFinNonneg_add _ _ a3 b3⟩

theorem nonneg_foldl {N : Nat} (g : Nat → FlashHypothesisCollection)
    (hg : ∀ pt, (g pt).WellSized N) (pts : List Nat) (ng : ∀ pt ∈ pts, (g pt).Nonneg)
    (fhc : FlashHypothesisCollection) (hfhc : fhc.WellSized N) (nfhc : fhc.Nonneg) :
    (pts.foldl (fun acc pt => acc.plus (g pt)) fhc).Nonneg := by
  induction pts generalizing fhc with
  | nil => exact nfhc
  | cons pt pts ih =>
    exact ih (fun q hq => ng q (List.mem_cons_of_mem _ hq)) _ (plus_wellSized hfhc (hg pt))
      (nonneg_plus hfhc (hg pt) nfhc (ng pt (List.mem_cons_self _ _)))

/-- The vectors derived by finalize from a finite non-negative prompt vector, with a
prompt fraction in `(0, 1]`, are finite and non-negative. -/
theorem nonneg_finalize (P : List FloatVal) (f : ℚ) (hf : 0 < f) (hf1 : f ≤ 1)
    (hP : ∀ d, (P.getD d 0).IsFinNonneg) :
    (⟨P, P.map (fun p => p / FloatVal.fin f - p), P.map (fun p => p / FloatVal.fin f)⟩ :
      FlashHypothesisCollection).Nonneg := by
  intro d
  refine ⟨hP d, ?_, ?_⟩
  · show ((P.map (fun p => p / FloatVal.fin f - p)).getD d 0).IsFinNonneg
    rw [getD_map_of_zero (fun p => p / FloatVal.fin f - p) (FloatVal.zero_div_sub f hf.ne')]
    exact FloatVal.isFinNonneg_div_sub _ f hf hf1 (hP d)
  · show ((P.map (fun p => p / FloatVal.fin f)).getD d 0).IsFinNonneg
    rw [getD_map_of_zero (fun p => p / FloatVal.fin f) (FloatVal.zero_div_fin f hf.ne')]
    exact FloatVal.isFinNonneg_div _ f hf (hP d)

/-- A finite energy loss computed from values `≥ 0` is `≥ 0`. -/
theorem segmentdEdx_nonneg (dEdxVector : List ℚ) (interp : Bool) (pt : Nat)
    (he : ∀ x ∈ dEdxVector, 0 ≤ x) (hfin : (segmentdEdx dEdxVector interp pt).IsFinite) :
    (segmentdEdx dEdxVector interp pt).IsFinNonneg := by
  have h1 := getD_nonneg_of_forall_mem dEdxVector he pt
  have h2 := getD_nonneg_of_forall_mem dEdxVector he (pt - 1)
  unfold segmentdEdx at hfin ⊢
  cases interp with
  | true =>
    simp only [if_true] at hfin ⊢
    cases h : interpolate (dEdxVector.getD pt 0) (dEdxVector.getD (pt - 1) 0) with
    | fin q => exact interpolate_nonneg _ _ q h1 h2 h
    | pinf => rw [h] at hfin; exact hfin.elim
    | ninf => rw [h] at hfin; exact hfin.elim
    | nan => rw [h] at hfin; exact hfin.elim
  | false => exact h2

theorem segmentPrompt_nonneg (pt1 pt2 : TVector3) (dEdx : FloatVal) (hd : dEdx.IsFinNonneg)
    (hY : 0 ≤ larp.ScintYield) (hf : 0 ≤ larp.ScintYieldRatio) (hQ : 0 ≤ opdigip.QE)
    (hv : ∀ pos, ∀ v ∈ pvs.GetAllVisibilities pos, 0 ≤ v) (d : Nat) :
    ((segmentPrompt hc geom pvs larp opdigip XOffset pt1 pt2 dEdx).getD d 0).IsFinNonneg := by
  apply getD_isFinNonneg_of_forall_mem
  intro x hx
  unfold segmentPrompt at hx
  obtain ⟨i, -, rfl⟩ := List.mem_map.mp hx
  have hlen : 0 ≤ hc.segmentLength pt1 pt2 := hc.sqrt_nonneg _
  have hvis : 0 ≤ (segmentVisibility hc pvs XOffset pt1 pt2).getD i 0 :=
    getD_nonneg_of_forall_mem _ (hv _) i
  cases dEdx with
  | fin q =>
    have hq : (0 : ℚ) ≤ q := hd
    show (0 : ℚ) ≤ larp.ScintYield * larp.ScintYieldRatio * q * hc.segmentLength pt1 pt2
      * opdigip.QE * (segmentVisibility hc pvs XOffset pt1 pt2).getD i 0
    positivity
  | pinf => exact hd.elim
  | ninf => exact hd.elim
  | nan => exact hd.elim

theorem nonneg_segmentCollection (locationAt : Nat → TVector3) (dEdxVector : List ℚ)
    (interp : Bool) (pt : Nat) (he : ∀ x ∈ dEdxVector, 0 ≤ x)
    (hfin : (segmentdEdx dEdxVector interp pt).IsFinite)
    (hY : 0 ≤ larp.ScintYield) (hf : 0 < larp.ScintYieldRatio)
    (hf1 : larp.ScintYieldRatio ≤ 1) (hQ : 0 ≤ opdigip.QE)
    (hv : ∀ pos, ∀ v ∈ pvs.GetAllVisibilities pos, 0 ≤ v) :
    (segmentCollection hc geom pvs larp opdigip XOffset locationAt dEdxVector interp
      pt).Nonneg := by
  unfold segmentCollection
  split
  · exact nonneg_finalize _ _ hf hf1
      (segmentPrompt_nonneg hc geom pvs larp opdigip XOffset _ _ _
        (segmentdEdx_nonneg dEdxVector interp pt he hfin) hY (le_of_lt hf) hQ hv)
  · exact nonneg_empty _

theorem plus_empty {N : Nat} {a : FlashHypothesisCollection} (ha : a.WellSized N) :
    a.plus (FlashHypothesisCollection.empty N) = a := by
  have h1 := add_empty ha
  rw [add_eq_plus ha (wellSized_empty N)] at h1
  exact Except.ok.inj h1

theorem empty_plus {N : Nat} {b : FlashHypothesisCollection} (hb : b.WellSized N) :
    (FlashHypothesisCollection.empty N).plus b = b := by
  have h1 := empty_add hb
  rw [add_eq_plus (wellSized_empty N) hb] at h1
  exact Except.ok.inj h1

theorem zipWith_add_right_comm (a b c : List FloatVal) :
    List.zipWith (· + ·) (List.zipWith (· + ·) a b) c
      = List.zipWith (· + ·) (List.zipWith (· + ·) a c) b := by
  induction a generalizing b c with
  | nil => simp
  | cons x xs ih =>
    cases b with
    | nil => cases c <;> simp
    | cons y ys =>
      cases c with
      | nil => simp
      | cons z zs => simp [ih, FloatVal.fadd_right_comm]

theorem zipWith_add_assoc (a b c : List FloatVal) :
    List.zipWith (· + ·) (List.zipWith (· + ·) a b) c
      = List.zipWith (· + ·) a (List.zipWith (· + ·) b c) := by
  induction a generalizing b c with
  | nil => simp
  | cons x xs ih =>
    cases b with
    | nil => simp
    | cons y ys =>
      cases c with
      | nil => simp
      | cons z zs => simp [ih, FloatVal.fadd_assoc]

theorem plus_right_comm (a b c : FlashHypothesisCollection) :
    (a.plus b).plus c = (a.plus c).plus b := by
  simp only [FlashHypothesisCollection.plus]
  rw [zipWith_add_right_comm a.prompt, zipWith_add_right_comm a.late,
    zipWith_add_right_comm a.total]

theorem plus_assoc (a b c : FlashHypothesisCollection) :
    (a.plus b).plus c = a.plus (b.plus c) := by
  simp only [FlashHypothesisCollection.plus]
  rw [zipWith_add_assoc, zipWith_add_assoc, zipWith_add_assoc]

/-- The fold of segment Collections does not depend on the order of the segments. -/
theorem foldl_plus_perm (g : Nat → FlashHypothesisCollection) {l₁ l₂ : List Nat}
    (hperm : l₁.Perm l₂) (fhc : FlashHypothesisCollection) :
    l₁.foldl (fun acc pt => acc.plus (g pt)) fhc
      = l₂.foldl (fun acc pt => acc.plus (g pt)) fhc :=
  List.Perm.foldl_eq' hperm (fun x _ y _ z => plus_right_comm z (g x) (g y)) fhc

theorem foldl_plus_shift (g : Nat → FlashHypothesisCollection) (pts : List Nat)
    (a x : FlashHypothesisCollection) :
    pts.foldl (fun acc pt => acc.plus (g pt)) (a.plus x)
      = a.plus (pts.foldl (fun acc pt => acc.plus (g pt)) x) := by
  induction pts generalizing x with
  | nil => rfl
  | cons pt pts ih =>
    rw [List.foldl_cons, List.foldl_cons, plus_assoc, ih]

/-- Either no segment can raise the configuration error, or one does. -/
theorem segmentLoop_cases (locationAt : Nat → TVector3) (pts : List Nat) :
    (0 < larp.ScintYieldRatio
        ∨ ∀ pt ∈ pts, segmentInDomain hc geom pvs XOffset locationAt pt = false)
      ∨ (larp.ScintYieldRatio ≤ 0
        ∧ ∃ pt ∈ pts, segmentInDomain hc geom pvs XOffset locationAt pt = true) := by
  by_cases hok : 0 < larp.ScintYieldRatio
      ∨ ∀ pt ∈ pts, segmentInDomain hc geom pvs XOffset locationAt pt = false
  · exact Or.inl hok
  · right
    refine ⟨?_, ?_⟩
    · by_contra hc'
      exact hok (Or.inl (not_le.mp hc'))
    · by_contra hne
      apply hok
      right
      intro pt hpt
      by_contra hpt'
      exact hne ⟨pt, hpt, by simpa using hpt'⟩

/-- The loop does not depend on the order in which the segments are visited. -/
theorem segmentLoop_perm (locationAt : Nat → TVector3) (dEdxVector : List ℚ)
    (interp : Bool) {l₁ l₂ : List Nat} (hperm : l₁.Perm l₂)
    (fhc : FlashHypothesisCollection) (hfhc : fhc.WellSized geom.NOpDets) :
    segmentLoop hc locationAt dEdxVector interp geom pvs larp opdigip XOffset l₁ fhc
      = segmentLoop hc locationAt dEdxVector interp geom pvs larp opdigip XOffset l₂ fhc := by
  rcases segmentLoop_cases hc geom pvs larp XOffset locationAt l₁ with hok | ⟨hf, hex⟩
  · have hok' : 0 < larp.ScintYieldRatio
        ∨ ∀ pt ∈ l₂, segmentInDomain hc geom pvs XOffset locationAt pt = false := by
      rcases hok with h | h
      · exact Or.inl h
      · exact Or.inr (fun pt hpt => h pt (hperm.mem_iff.mpr hpt))
    rw [segmentLoop_eq_foldl hc geom pvs larp opdigip XOffset _ _ _ _ _ hfhc hok,
      segmentLoop_eq_foldl hc geom pvs larp opdigip XOffset _ _ _ _ _ hfhc hok',
      foldl_plus_perm _ hperm]
  · have hex' : ∃ pt ∈ l₂, segmentInDomain hc geom pvs XOffset locationAt pt = true := by
      obtain ⟨pt, hpt, hin⟩ := hex
      exact ⟨pt, hperm.mem_iff.mp hpt, hin⟩
    rw [segmentLoop_configuration hc geom pvs larp opdigip XOffset _ _ _ _ _ hfhc hf hex,
      segmentLoop_configuration hc geom pvs larp opdigip XOffset _ _ _ _ _ hfhc hf hex']

/-- Two loops whose segments correspond under a renumbering `σ` give the same result. -/
theorem segmentLoop_reindex (loc1 loc2 : Nat → TVector3) (e1 e2 : List ℚ) (i1 i2 : Bool)
    (σ : Nat → Nat) (pts : List Nat) (fhc : FlashHypothesisCollection)
    (h : ∀ pt ∈ pts,
      CreateFlashHypothesesFromSegment hc (loc1 (pt - 1)) (loc1 pt) (segmentdEdx e1 i1 pt)
          geom pvs larp opdigip XOffset
        = CreateFlashHypothesesFromSegment hc (loc2 (σ pt - 1)) (loc2 (σ pt))
            (segmentdEdx e2 i2 (σ pt)) geom pvs larp opdigip XOffset) :
    segmentLoop hc loc1 e1 i1 geom pvs larp opdigip XOffset pts fhc
      = segmentLoop hc loc2 e2 i2 geom pvs larp opdigip XOffset (pts.map σ) fhc := by
  induction pts generalizing fhc with
  | nil => rfl
  | cons pt pts ih =>
    rw [List.map_cons, segmentLoop_cons, segmentLoop_cons, h pt (List.mem_cons_self _ _)]
    cases CreateFlashHypothesesFromSegment hc (loc2 (σ pt - 1)) (loc2 (σ pt))
        (segmentdEdx e2 i2 (σ pt)) geom pvs larp opdigip XOffset with
    | error err => rfl
    | ok s =>
      dsimp only
      cases fhc.add s with
      | error err => rfl
      | ok fhc' => exact ih fhc' (fun q hq => h q (List.mem_cons_of_mem _ hq))

/-- Visiting two lists of segments in turn. -/
theorem segmentLoop_append (locationAt : Nat → TVector3) (dEdxVector : List ℚ)
    (interp : Bool) (l₁ l₂ : List Nat) (fhc : FlashHypothesisCollection) :
    segmentLoop hc locationAt dEdxVector interp geom pvs larp opdigip XOffset (l₁ ++ l₂) fhc
      = match segmentLoop hc locationAt dEdxVector interp geom pvs larp opdigip XOffset
            l₁ fhc with
        | .error err => .error err
        | .ok c =>
          segmentLoop hc locationAt dEdxVector interp geom pvs larp opdigip XOffset l₂ c := by
  induction l₁ generalizing fhc with
  | nil => rfl
  | cons pt pts ih =>
    rw [List.cons_append, segmentLoop_cons, segmentLoop_cons]
    cases CreateFlashHypothesesFromSegment hc (locationAt (pt - 1)) (locationAt pt)
        (segmentdEdx dEdxVector interp pt) geom pvs larp opdigip XOffset with
    | error err => rfl
    | ok s =>
      dsimp only
      cases fhc.add s with
      | error err => rfl
      | ok fhc' => exact ih fhc'

/-- Starting the loop from a running Collection is adding the loop's own result to it. -/
theorem segmentLoop_from (locationAt : Nat → TVector3) (dEdxVector : List ℚ)
    (interp : Bool) (pts : List Nat) (a : FlashHypothesisCollection)
    (ha : a.WellSized geom.NOpDets) :
    segmentLoop hc locationAt dEdxVector interp geom pvs larp opdigip XOffset pts a
      = match segmentLoop hc locationAt dEdxVector interp geom pvs larp opdigip XOffset pts
            (FlashHypothesisCollection.empty geom.NOpDets) with
        | .error err => .error err
        | .ok b => a.add b := by
  rcases segmentLoop_cases hc geom pvs larp XOffset locationAt pts with hok | ⟨hf, hex⟩
  · rw [segmentLoop_eq_foldl hc geom pvs larp opdigip XOffset _ _ _ _ _ ha hok,
      segmentLoop_eq_foldl hc geom pvs larp opdigip XOffset _ _ _ _ _ (wellSized_empty _)
        hok]
    dsimp only
    rw [add_eq_plus ha (foldl_plus_wellSized _
      (segmentCollection_wellSized hc geom pvs larp opdigip XOffset _ _ _) _ _
      (wellSized_empty _)), ← foldl_plus_shift, plus_empty ha]
  · rw [segmentLoop_configuration hc geom pvs larp opdigip XOffset _ _ _ _ _ ha hf hex,
      segmentLoop_configuration hc geom pvs larp opdigip XOffset _ _ _ _ _
        (wellSized_empty _) hf hex]

theorem segmentMidpoint_comm (pt1 pt2 : TVector3) :
    hc.SegmentMidpoint pt1 pt2 XOffset = hc.SegmentMidpoint pt2 pt1 XOffset := by
  simp only [FlashHypothesisCalculator.SegmentMidpoint, add_comm pt2.x, add_comm pt2.y,
    add_comm pt2.z]

theorem segmentLength_comm (pt1 pt2 : TVector3) :
    hc.segmentLength pt1 pt2 = hc.segmentLength pt2 pt1 := by
  unfold FlashHypothesisCalculator.segmentLength
  congr 1
  simp only [TVector3.sub, TVector3.Mag2]
  ring

/-- A segment and the same segment walked backwards contribute the same. -/
theorem create_swap (pt1 pt2 : TVector3) (dEdx : FloatVal) :
    CreateFlashHypothesesFromSegment hc pt1 pt2 dEdx geom pvs larp opdigip XOffset
      = CreateFlashHypothesesFromSegment hc pt2 pt1 dEdx geom pvs larp opdigip XOffset := by
  simp only [CreateFlashHypothesesFromSegment, FlashHypothesisCalculator.FillFlashHypothesis,
    segmentMidpoint_comm hc XOffset pt1 pt2, segmentLength_comm hc pt1 pt2]

theorem getD_reverse_of_lt {α : Type} (l : List α) (i : Nat) (d : α) (h : i < l.length) :
    l.reverse.getD i d = l.getD (l.length - 1 - i) d := by
  rw [List.getD_eq_getElem?_getD, List.getD_eq_getElem?_getD, List.getElem?_reverse h]

theorem getD_take_of_lt {α : Type} (l : List α) (n i : Nat) (d : α) (h : i < n) :
    (l.take n).getD i d = l.getD i d := by
  rw [List.getD_eq_getElem?_getD, List.getD_eq_getElem?_getD, List.getElem?_take_of_lt h]

theorem getD_drop_add {α : Type} (l : List α) (k i : Nat) (d : α) :
    (l.drop k).getD i d = l.getD (k + i) d := by
  rw [List.getD_eq_getElem?_getD, List.getD_eq_getElem?_getD, List.getElem?_drop]

/-- Renumbering the segments from the far end is a permutation of them. -/
theorem map_sub_range'_perm (T : Nat) :
    ((List.range' 1 (T - 1)).map (fun s => T - s)).Perm (List.range' 1 (T - 1)) := by
  rw [List.perm_ext_iff_of_nodup]
  · intro a
    rw [List.mem_map, List.mem_range'_1]
    constructor
    · rintro ⟨s, hs, rfl⟩
      rw [List.mem_range'_1] at hs
      omega
    · intro ha
      refine ⟨T - a, ?_, by omega⟩
      rw [List.mem_range'_1]
      omega
  · apply List.Nodup.map_on
    · intro x hx y hy hxy
      rw [List.mem_range'_1] at hx hy
      omega
    · exact List.nodup_range' 1 (T - 1)
  · exact List.nodup_range' 1 (T - 1)

/-- Energy loss of a segment of the reversed trajectory. -/
theorem segmentdEdx_reverse (e : List ℚ) (T pt : Nat)
    (hshape : e.length = T ∨ e.length + 1 = T) (h1 : 1 ≤ pt) (h2 : pt < T) :
    segmentdEdx e.reverse (decide (e.length = T)) pt
      = segmentdEdx e (decide (e.length = T)) (T - pt) := by
  unfold segmentdEdx
  rcases hshape with h | h
  · have ha : e.reverse.getD pt 0 = e.getD (T - pt - 1) 0 := by
      rw [getD_reverse_of_lt e pt 0 (by omega), h]
      congr 1
      omega
    have hb : e.reverse.getD (pt - 1) 0 = e.getD (T - pt) 0 := by
      rw [getD_reverse_of_lt e (pt - 1) 0 (by omega), h]
      congr 1
      omega
    simp only [h, decide_True, if_true, ha, hb]
    exact interpolate_comm _ _
  · have hne : ¬ e.length = T := by omega
    have hb : e.reverse.getD (pt - 1) 0 = e.getD (T - pt - 1) 0 := by
      rw [getD_reverse_of_lt e (pt - 1) 0 (by omega)]
      congr 1
      omega
    simp only [hne, decide_False, Bool.false_eq_true, if_false, hb]

/-- The segment from the origin to `(0, 0, 1)` has length `1`. -/
theorem segmentLength_unit : hc.segmentLength ⟨0, 0, 0⟩ ⟨0, 0, 1⟩ = 1 := by
  have h := hc.sqrt_mul_self 1 (by norm_num)
  unfold FlashHypothesisCalculator.segmentLength TVector3.sub TVector3.Mag2
  norm_num
  norm_num at h
  exact h

/-- The point-list overload on the unit segment `(0,0,0)`, `(0,0,1)` with a point-sampled
profile `[e0, e1]`, one detector of visibility `1` and quantum efficiency `1`. -/
theorem unit_segment_pointSampled (e0 e1 Y f : ℚ) (hf : 0 < f) :
    GetFlashHypothesisCollection_trajVector hc [⟨0, 0, 0⟩, ⟨0, 0, 1⟩] [e0, e1] ⟨1⟩
        ⟨fun _ => [1]⟩ ⟨Y, f⟩ ⟨1⟩ 0
      = .ok ⟨[FloatVal.fin (Y * f) * interpolate e1 e0],
          [FloatVal.fin (Y * f) * interpolate e1 e0 / FloatVal.fin f
            - FloatVal.fin (Y * f) * interpolate e1 e0],
          [FloatVal.fin (Y * f) * interpolate e1 e0 / FloatVal.fin f]⟩ := by
  have hin : (segmentVisibility hc ⟨fun _ => [1]⟩ 0 ⟨0, 0, 0⟩ ⟨0, 0, 1⟩).length
      = (⟨1⟩ : Geometry).NOpDets := rfl
  have hcreate := create_inside_pos hc ⟨1⟩ ⟨fun _ => [1]⟩ ⟨Y, f⟩ ⟨1⟩ 0 ⟨0, 0, 0⟩ ⟨0, 0, 1⟩
    (interpolate e1 e0) hin hf
  simp only [GetFlashHypothesisCollection_trajVector, List.length_cons, List.length_nil,
    Nat.reduceAdd, if_true, Nat.add_one_sub_one, List.range', segmentLoop,
    List.getD_cons_zero, List.getD_cons_succ, Nat.sub_self, hcreate]
  simp [FlashHypothesisCollection.add, FlashHypothesisCollection.detectorCount,
    FlashHypothesisCollection.empty, FlashHypothesis.zeros, segmentPrompt, segmentVisibility,
    segmentLength_unit, List.range_succ, FloatVal.fmul_one, FloatVal.fzero_add]

/-- The unit segment with the profile `[2^127, 2^127]` and prompt fraction `1/2`: the
float32 sum overflows. -/
theorem overflow_scenario :
    GetFlashHypothesisCollection_trajVector hc [⟨0, 0, 0⟩, ⟨0, 0, 1⟩] [2 ^ 127, 2 ^ 127] ⟨1⟩
        ⟨fun _ => [1]⟩ ⟨1, 1 / 2⟩ ⟨1⟩ 0
      = .ok ⟨[FloatVal.pinf], [FloatVal.nan], [FloatVal.pinf]⟩ := by
  rw [unit_segment_pointSampled hc (2 ^ 127) (2 ^ 127) 1 (1 / 2) (by norm_num),
    interpolate_overflow]
  have h1 : FloatVal.fin (1 * (1 / 2)) * FloatVal.pinf = FloatVal.pinf := by
    show FloatVal.infTimes true (1 * (1 / 2)) = FloatVal.pinf
    norm_num [FloatVal.infTimes]
  have h2 : FloatVal.pinf / FloatVal.fin (1 / 2) = FloatVal.pinf := by
    show FloatVal.div FloatVal.pinf (FloatVal.fin (1 / 2)) = FloatVal.pinf
    norm_num [FloatVal.div]
  have h3 : FloatVal.pinf - FloatVal.pinf = FloatVal.nan := rfl
  rw [h1, h2, h3]

/-- The point-list overload on the unit segment `(0,0,0)`, `(0,0,1)` with a
segment-averaged profile `[e0]`, one detector of visibility `1` and quantum efficiency
`1`. -/
theorem unit_segment_segmentAveraged (e0 Y f : ℚ) (hf : 0 < f) :
    GetFlashHypothesisCollection_trajVector hc [⟨0, 0, 0⟩, ⟨0, 0, 1⟩] [e0] ⟨1⟩
        ⟨fun _ => [1]⟩ ⟨Y, f⟩ ⟨1⟩ 0
      = .ok ⟨[FloatVal.fin (Y * f * e0)], [FloatVal.fin (Y * f * e0 / f - Y * f * e0)],
          [FloatVal.fin (Y * f * e0 / f)]⟩ := by
  have hin : (segmentVisibility hc ⟨fun _ => [1]⟩ 0 ⟨0, 0, 0⟩ ⟨0, 0, 1⟩).length
      = (⟨1⟩ : Geometry).NOpDets := rfl
  have hcreate := create_inside_pos hc ⟨1⟩ ⟨fun _ => [1]⟩ ⟨Y, f⟩ ⟨1⟩ 0 ⟨0, 0, 0⟩ ⟨0, 0, 1⟩
    (FloatVal.fin e0) hin hf
  simp only [GetFlashHypothesisCollection_trajVector, List.length_cons, List.length_nil,
    Nat.reduceAdd, Nat.reduceEqDiff, if_false, if_true, Nat.add_one_sub_one, List.range',
    segmentLoop, List.getD_cons_zero, List.getD_cons_succ, Nat.sub_self, hcreate,
    Bool.false_eq_true]
  simp [FlashHypothesisCollection.add, FlashHypothesisCollection.detectorCount,
    FlashHypothesisCollection.empty, FlashHypothesis.zeros, segmentPrompt, segmentVisibility,
    segmentLength_unit, List.range_succ, FloatVal.fmul_one, FloatVal.fzero_add,
    FloatVal.fin_mul_fin, FloatVal.fin_div_fin _ _ hf.ne', FloatVal.fin_sub_fin]

/-- The interpolation of the profile `[2, 2]` is finite. -/
theorem segmentdEdx_two_two (pt : Nat) (h1 : 1 ≤ pt) (h2 : pt < 2) :
    (segmentdEdx [2, 2] (decide (([2, 2] : List ℚ).length = 2)) pt).IsFinite := by
  have hpt : pt = 1 := by omega
  subst hpt
  have h : segmentdEdx [2, 2] (decide (([2, 2] : List ℚ).length = 2)) 1 = interpolate 2 2 :=
    rfl
  rw [h, interpolate_self 2 round32_two (by norm_num)]
  exact trivial

end lemmas

/-! ## The claims -/

section claims

/-- C1 (amended): length-validation law.  For each of the three multi-point overloads
of `GetFlashHypothesisCollection`, with `T` trajectory points and `D` energy-loss values,
the input-shape error is raised if and only if neither `D = T` nor `D + 1 = T`; a
Collection is returned if and only if `D = T` or `D + 1 = T` and, moreover, the prompt
fraction is positive or no segment has a visibility vector of the detector count (in
the remaining shape-valid case finalize raises the configuration error). -/
theorem length_validation_law (hc : FlashHypothesisCalculator) (trajVector : List TVector3)
    (track : Track) (mctrack : MCTrack) (dEdxVector : List ℚ) (geom : Geometry)
    (pvs : PhotonVisibilityService) (larp : LArProperties) (opdigip : OpDigiProperties)
    (XOffset : ℚ) :
    (((∃ c, GetFlashHypothesisCollection_trajVector hc trajVector dEdxVector geom pvs larp
            opdigip XOffset = .ok c)
        ↔ (dEdxVector.length = trajVector.length ∨ dEdxVector.length + 1 = trajVector.length)
          ∧ (0 < larp.ScintYieldRatio
            ∨ ∀ pt, 1 ≤ pt → pt < trajVector.length →
                segmentInDomain hc geom pvs XOffset
                  (fun pt => trajVector.getD pt ⟨0, 0, 0⟩) pt = false))
      ∧ ((∃ m, GetFlashHypothesisCollection_trajVector hc trajVector dEdxVector geom pvs larp
            opdigip XOffset = .error (.inputShape m))
        ↔ ¬ (dEdxVector.length = trajVector.length
            ∨ dEdxVector.length + 1 = trajVector.length)))
    ∧ (((∃ c, GetFlashHypothesisCollection_track hc track dEdxVector geom pvs larp
            opdigip XOffset = .ok c)
        ↔ (dEdxVector.length = track.NumberTrajectoryPoints
            ∨ dEdxVector.length + 1 = track.NumberTrajectoryPoints)
          ∧ (0 < larp.ScintYieldRatio
            ∨ ∀ pt, 1 ≤ pt → pt < track.NumberTrajectoryPoints →
                segmentInDomain hc geom pvs XOffset track.LocationAtPoint pt = false))
      ∧ ((∃ m, GetFlashHypothesisCollection_track hc track dEdxVector geom pvs larp
            opdigip XOffset = .error (.inputShape m))
        ↔ ¬ (dEdxVector.length = track.NumberTrajectoryPoints
            ∨ dEdxVector.length + 1 = track.NumberTrajectoryPoints)))
    ∧ (((∃ c, GetFlashHypothesisCollection_mctrack hc mctrack dEdxVector geom pvs larp
            opdigip XOffset = .ok c)
        ↔ (dEdxVector.length = mctrack.length ∨ dEdxVector.length + 1 = mctrack.length)
          ∧ (0 < larp.ScintYieldRatio
            ∨ ∀ pt, 1 ≤ pt → pt < mctrack.length →
                segmentInDomain hc geom pvs XOffset
                  (fun pt => (mctrack.at pt).Position.Vect) pt = false))
      ∧ ((∃ m, GetFlashHypothesisCollection_mctrack hc mctrack dEdxVector geom pvs larp
            opdigip XOffset = .error (.inputShape m))
        ↔ ¬ (dEdxVector.length = mctrack.length
            ∨ dEdxVector.length + 1 = mctrack.length))) := by
  refine ⟨?_, ?_, ?_⟩
  · rw [trajVector_eq_multiPoint]
    exact multiPoint_validation hc geom pvs larp opdigip XOffset _ _ _ _
  · rw [track_eq_multiPoint]
    exact multiPoint_validation hc geom pvs larp opdigip XOffset _ _ _ _
  · rw [mctrack_eq_multiPoint]
    exact multiPoint_validation hc geom pvs larp opdigip XOffset _ _ _ _

/-- C1 (counterexample): two points, one energy-loss value (`D = T - 1`), one detector,
a visibility vector of length one and prompt fraction `0`: no Collection is returned
(the result is the configuration error), so "a Collection if and only if `D = T` or
`D = T - 1`" fails. -/
theorem length_validation_law_counterexample :
    ¬ ((∃ c, GetFlashHypothesisCollection_trajVector calcQ [⟨0, 0, 0⟩, ⟨0, 0, 10⟩] [2] ⟨1⟩
            ⟨fun _ => [1 / 1000]⟩ ⟨24000, 0⟩ ⟨1 / 50⟩ 0 = .ok c)
        ↔ (([2] : List ℚ).length = ([⟨0, 0, 0⟩, ⟨0, 0, 10⟩] : List TVector3).length
          ∨ ([2] : List ℚ).length = ([⟨0, 0, 0⟩, ⟨0, 0, 10⟩] : List TVector3).length - 1)) := by
  have h : GetFlashHypothesisCollection_trajVector calcQ [⟨0, 0, 0⟩, ⟨0, 0, 10⟩] [2] ⟨1⟩
      ⟨fun _ => [1 / 1000]⟩ ⟨24000, 0⟩ ⟨1 / 50⟩ 0 = .error .configuration := by
    simp [GetFlashHypothesisCollection_trajVector, segmentLoop,
      CreateFlashHypothesesFromSegment,
      FlashHypothesisCollection.SetPromptHypAndPromptFraction]
  rw [h]
  simp

/-- C2 (amended): worked scenario.  For the two-point trajectory `(0,0,0)`, `(0,0,10)` with
`dE/dx = 2`, scintillation yield `24000`, prompt fraction `0.23`, quantum efficiency
`0.02` and one detector whose visibility at the corrected midpoint is `0.001`,
`CreateFlashHypothesesFromSegment` returns the Collection with `prompt[0] = 2.208`,
`late[0] = 7.392` and `total[0] = 9.6`. -/
theorem worked_scenario (hc : FlashHypothesisCalculator) (pvs : PhotonVisibilityService)
    (XOffset : ℚ)
    (hvis : pvs.GetAllVisibilities (hc.SegmentMidpoint ⟨0, 0, 0⟩ ⟨0, 0, 10⟩ XOffset)
      = [1 / 1000]) :
    CreateFlashHypothesesFromSegment hc ⟨0, 0, 0⟩ ⟨0, 0, 10⟩ 2 ⟨1⟩ pvs ⟨24000, 23 / 100⟩
        ⟨2 / 100⟩ XOffset
      = .ok ⟨[2208 / 1000], [7392 / 1000], [96 / 10]⟩ :=
  create_scenario hc pvs XOffset hvis

/-- C2 (witness): the scenario with a constant visibility table and no offset. -/
theorem worked_scenario_witness :
    (⟨fun _ => [1 / 1000]⟩ : PhotonVisibilityService).GetAllVisibilities
        (calcQ.SegmentMidpoint ⟨0, 0, 0⟩ ⟨0, 0, 10⟩ 0) = [1 / 1000]
    ∧ CreateFlashHypothesesFromSegment calcQ ⟨0, 0, 0⟩ ⟨0, 0, 10⟩ 2 ⟨1⟩
        ⟨fun _ => [1 / 1000]⟩ ⟨24000, 23 / 100⟩ ⟨2 / 100⟩ 0
      = .ok ⟨[2208 / 1000], [7392 / 1000], [96 / 10]⟩ :=
  ⟨rfl, worked_scenario calcQ ⟨fun _ => [1 / 1000]⟩ 0 rfl⟩

/-- C2 (counterexample): in the worked scenario the Collection built by
`CreateFlashHypothesesFromSegment` does not have `prompt[0] = 0.4416`, `total[0] = 1.92`
and `late[0] = 1.4784`; none of the three values is attained. -/
theorem worked_scenario_counterexample :
    ∃ c, CreateFlashHypothesesFromSegment calcQ ⟨0, 0, 0⟩ ⟨0, 0, 10⟩ 2 ⟨1⟩
        ⟨fun _ => [1 / 1000]⟩ ⟨24000, 23 / 100⟩ ⟨2 / 100⟩ 0 = .ok c
      ∧ c.prompt.getD 0 0 ≠ 4416 / 10000
      ∧ c.total.getD 0 0 ≠ 192 / 100
      ∧ c.late.getD 0 0 ≠ 14784 / 10000 := by
  refine ⟨_, create_scenario calcQ ⟨fun _ => [1 / 1000]⟩ 0 rfl, ?_, ?_, ?_⟩ <;>
    simp only [List.getD_cons_zero, FloatVal.ofNat_eq] <;>
    norm_num [FloatVal.fin_div_fin]

/-- C4 (amended): two-representation equivalence.  For every trajectory of `T` points and
every float32 value `c` with `|c| < 2^127`, so that the float32 sum `c + c` does not
overflow, the point-list overload returns the same result for the point-sampled profile
`[c, ..., c]` of length `T` and for the segment-averaged profile `[c, ..., c]` of length
`T - 1`. -/
theorem two_representation_equivalence (hc : FlashHypothesisCalculator)
    (trajVector : List TVector3) (c : ℚ) (geom : Geometry) (pvs : PhotonVisibilityService)
    (larp : LArProperties) (opdigip : OpDigiProperties) (XOffset : ℚ)
    (hfloat : binary32.round c = FloatVal.fin c) (hbound : |c| < 2 ^ 127) :
    GetFlashHypothesisCollection_trajVector hc trajVector
        (List.replicate trajVector.length c) geom pvs larp opdigip XOffset
      = GetFlashHypothesisCollection_trajVector hc trajVector
        (List.replicate (trajVector.length - 1) c) geom pvs larp opdigip XOffset := by
  rcases Nat.eq_zero_or_pos trajVector.length with h0 | hpos
  · rw [h0]
  · have hT : (List.replicate trajVector.length c).length = trajVector.length
        ∨ (List.replicate trajVector.length c).length + 1 = trajVector.length :=
      Or.inl (List.length_replicate _ _)
    have hS : (List.replicate (trajVector.length - 1) c).length = trajVector.length
        ∨ (List.replicate (trajVector.length - 1) c).length + 1 = trajVector.length := by
      right
      rw [List.length_replicate]
      omega
    rw [trajVector_eq_multiPoint, trajVector_eq_multiPoint,
      multiPoint_valid hc geom pvs larp opdigip XOffset _ _ _ _ hT,
      multiPoint_valid hc geom pvs larp opdigip XOffset _ _ _ _ hS]
    apply segmentLoop_congr
    intro pt hpt
    rw [List.mem_range'_1] at hpt
    have g1 : (List.replicate trajVector.length c).getD pt 0 = c :=
      getD_replicate_of_lt _ _ _ (by omega)
    have g2 : (List.replicate trajVector.length c).getD (pt - 1) 0 = c :=
      getD_replicate_of_lt _ _ _ (by omega)
    have g3 : (List.replicate (trajVector.length - 1) c).getD (pt - 1) 0 = c :=
      getD_replicate_of_lt _ _ _ (by omega)
    have h1 : ¬ (trajVector.length - 1 = trajVector.length) := by omega
    simp only [segmentdEdx, List.length_replicate, decide_True, if_true, h1, decide_False,
      g1, g2, g3, Bool.false_eq_true, if_false]
    exact interpolate_self c hfloat (by exact_mod_cast hbound)

/-- C4 (witness): the value `2` on a two-point trajectory. -/
theorem two_representation_equivalence_witness :
    binary32.round 2 = FloatVal.fin 2 ∧ |(2 : ℚ)| < 2 ^ 127
    ∧ GetFlashHypothesisCollection_trajVector calcQ [⟨0, 0, 0⟩, ⟨0, 0, 10⟩]
        (List.replicate ([⟨0, 0, 0⟩, ⟨0, 0, 10⟩] : List TVector3).length 2) ⟨1⟩
        ⟨fun _ => [1 / 1000]⟩ ⟨24000, 23 / 100⟩ ⟨2 / 100⟩ 0
      = GetFlashHypothesisCollection_trajVector calcQ [⟨0, 0, 0⟩, ⟨0, 0, 10⟩]
        (List.replicate (([⟨0, 0, 0⟩, ⟨0, 0, 10⟩] : List TVector3).length - 1) 2) ⟨1⟩
        ⟨fun _ => [1 / 1000]⟩ ⟨24000, 23 / 100⟩ ⟨2 / 100⟩ 0 :=
  ⟨round32_two, by norm_num,
    two_representation_equivalence calcQ [⟨0, 0, 0⟩, ⟨0, 0, 10⟩] 2 ⟨1⟩ ⟨fun _ => [1 / 1000]⟩
      ⟨24000, 23 / 100⟩ ⟨2 / 100⟩ 0
      round32_two (by norm_num)⟩

/-- C4 (counterexample): the float32 value `c = 2^127` on the unit segment `(0,0,0)`,
`(0,0,1)`, one detector, prompt fraction `1/2`, the other constants `1`.  With the
point-sampled profile `[c, c]` the float32 sum `c + c` overflows and the segment is handed
`+inf`: the result is `prompt = +inf`, `late = NaN`, `total = +inf`.  With the
segment-averaged profile `[c]` the result is finite. -/
theorem two_representation_equivalence_counterexample :
    binary32.round (2 ^ 127) = FloatVal.fin (2 ^ 127)
    ∧ GetFlashHypothesisCollection_trajVector calcQ [⟨0, 0, 0⟩, ⟨0, 0, 1⟩]
        (List.replicate ([⟨0, 0, 0⟩, ⟨0, 0, 1⟩] : List TVector3).length (2 ^ 127)) ⟨1⟩
        ⟨fun _ => [1]⟩ ⟨1, 1 / 2⟩ ⟨1⟩ 0
      = .ok ⟨[FloatVal.pinf], [FloatVal.nan], [FloatVal.pinf]⟩
    ∧ GetFlashHypothesisCollection_trajVector calcQ [⟨0, 0, 0⟩, ⟨0, 0, 1⟩]
        (List.replicate (([⟨0, 0, 0⟩, ⟨0, 0, 1⟩] : List TVector3).length - 1) (2 ^ 127)) ⟨1⟩
        ⟨fun _ => [1]⟩ ⟨1, 1 / 2⟩ ⟨1⟩ 0
      = .ok ⟨[FloatVal.fin (2 ^ 126)], [FloatVal.fin (2 ^ 126)], [FloatVal.fin (2 ^ 127)]⟩
    ∧ GetFlashHypothesisCollection_trajVector calcQ [⟨0, 0, 0⟩, ⟨0, 0, 1⟩]
        (List.replicate ([⟨0, 0, 0⟩, ⟨0, 0, 1⟩] : List TVector3).length (2 ^ 127)) ⟨1⟩
        ⟨fun _ => [1]⟩ ⟨1, 1 / 2⟩ ⟨1⟩ 0
      ≠ GetFlashHypothesisCollection_trajVector calcQ [⟨0, 0, 0⟩, ⟨0, 0, 1⟩]
        (List.replicate (([⟨0, 0, 0⟩, ⟨0, 0, 1⟩] : List TVector3).length - 1) (2 ^ 127)) ⟨1⟩
        ⟨fun _ => [1]⟩ ⟨1, 1 / 2⟩ ⟨1⟩ 0 := by
  have h1 : GetFlashHypothesisCollection_trajVector calcQ [⟨0, 0, 0⟩, ⟨0, 0, 1⟩]
      (List.replicate ([⟨0, 0, 0⟩, ⟨0, 0, 1⟩] : List TVector3).length (2 ^ 127)) ⟨1⟩
      ⟨fun _ => [1]⟩ ⟨1, 1 / 2⟩ ⟨1⟩ 0
      = .ok ⟨[FloatVal.pinf], [FloatVal.nan], [FloatVal.pinf]⟩ := overflow_scenario calcQ
  have h2 : GetFlashHypothesisCollection_trajVector calcQ [⟨0, 0, 0⟩, ⟨0, 0, 1⟩]
      (List.replicate (([⟨0, 0, 0⟩, ⟨0, 0, 1⟩] : List TVector3).length - 1) (2 ^ 127)) ⟨1⟩
      ⟨fun _ => [1]⟩ ⟨1, 1 / 2⟩ ⟨1⟩ 0
      = .ok ⟨[FloatVal.fin (2 ^ 126)], [FloatVal.fin (2 ^ 126)], [FloatVal.fin (2 ^ 127)]⟩ := by
    have h := unit_segment_segmentAveraged calcQ (2 ^ 127) 1 (1 / 2) (by norm_num)
    have e1 : (1 : ℚ) * (1 / 2) * 2 ^ 127 = 2 ^ 126 := by norm_num
    have e2 : (1 : ℚ) * (1 / 2) * 2 ^ 127 / (1 / 2) - 1 * (1 / 2) * 2 ^ 127 = 2 ^ 126 := by
      norm_num
    have e3 : (1 : ℚ) * (1 / 2) * 2 ^ 127 / (1 / 2) = 2 ^ 127 := by norm_num
    rw [e2, e3, e1] at h
    exact h
  refine ⟨round32_pow127, h1, h2, ?_⟩
  rw [h1, h2]
  intro h
  have h' := congrArg (fun c => c.prompt) (Except.ok.inj h)
  simp at h'

/-- C5: single-segment shortcut equivalence.  The two-point entry point returns the same
result as the point-list overload on the trajectory `[pt1, pt2]` with the one-element
profile `[dEdx]`. -/
theorem single_segment_shortcut (hc : FlashHypothesisCalculator) (pt1 pt2 : TVector3)
    (dEdx : ℚ) (geom : Geometry) (pvs : PhotonVisibilityService) (larp : LArProperties)
    (opdigip : OpDigiProperties) (XOffset : ℚ) :
    GetFlashHypothesisCollection_pt1pt2 hc pt1 pt2 dEdx geom pvs larp opdigip XOffset
      = GetFlashHypothesisCollection_trajVector hc [pt1, pt2] [dEdx] geom pvs larp opdigip
          XOffset := by
  simp only [GetFlashHypothesisCollection_pt1pt2, GetFlashHypothesisCollection_trajVector,
    List.length_cons, List.length_nil, List.range', segmentLoop]
  simp only [Nat.reduceAdd, Nat.reduceEqDiff, if_false, if_true, Nat.sub_self,
    List.getD_cons_zero, List.getD_cons_succ, Bool.false_eq_true]
  cases h : CreateFlashHypothesesFromSegment hc pt1 pt2 (FloatVal.fin dEdx) geom pvs larp
      opdigip XOffset with
  | error err => rfl
  | ok s =>
    simp only [empty_add (create_wellSized hc geom pvs larp opdigip XOffset _ _ _ _ h)]

/-- C6: out-of-domain segment.  If the visibility lookup at the corrected midpoint
returns a vector whose length differs from the detector count `N`,
`CreateFlashHypothesesFromSegment` returns a Collection whose prompt, late and total
are zero vectors of length `N`, and adding it to a running Collection of length `N`
leaves that Collection unchanged. -/
theorem out_of_domain_segment (hc : FlashHypothesisCalculator) (pt1 pt2 : TVector3)
    (dEdx : ℚ) (geom : Geometry) (pvs : PhotonVisibilityService) (larp : LArProperties)
    (opdigip : OpDigiProperties) (XOffset : ℚ)
    (hvis : (pvs.GetAllVisibilities (hc.SegmentMidpoint pt1 pt2 XOffset)).length
      ≠ geom.NOpDets) :
    ∃ c, CreateFlashHypothesesFromSegment hc pt1 pt2 dEdx geom pvs larp opdigip XOffset
        = .ok c
      ∧ c.prompt = List.replicate geom.NOpDets 0
      ∧ c.late = List.replicate geom.NOpDets 0
      ∧ c.total = List.replicate geom.NOpDets 0
      ∧ ∀ fhc : FlashHypothesisCollection, fhc.WellSized geom.NOpDets →
          fhc.add c = .ok fhc :=
  ⟨FlashHypothesisCollection.empty geom.NOpDets,
    create_outside hc geom pvs larp opdigip XOffset pt1 pt2 dEdx hvis, rfl, rfl, rfl,
    fun _ hfhc => add_empty hfhc⟩

/-- C6 (witness): a visibility table that answers with the empty vector, one detector. -/
theorem out_of_domain_segment_witness :
    ((⟨fun _ => []⟩ : PhotonVisibilityService).GetAllVisibilities
        (calcQ.SegmentMidpoint ⟨0, 0, 0⟩ ⟨0, 0, 10⟩ 0)).length ≠ (⟨1⟩ : Geometry).NOpDets
    ∧ ∃ c, CreateFlashHypothesesFromSegment calcQ ⟨0, 0, 0⟩ ⟨0, 0, 10⟩ 2 ⟨1⟩ ⟨fun _ => []⟩
          ⟨24000, 23 / 100⟩ ⟨2 / 100⟩ 0 = .ok c
        ∧ c.prompt = List.replicate (⟨1⟩ : Geometry).NOpDets 0
        ∧ c.late = List.replicate (⟨1⟩ : Geometry).NOpDets 0
        ∧ c.total = List.replicate (⟨1⟩ : Geometry).NOpDets 0
        ∧ ∀ fhc : FlashHypothesisCollection, fhc.WellSized (⟨1⟩ : Geometry).NOpDets →
            fhc.add c = .ok fhc :=
  ⟨by decide, out_of_domain_segment calcQ ⟨0, 0, 0⟩ ⟨0, 0, 10⟩ 2 ⟨1⟩ ⟨fun _ => []⟩
    ⟨24000, 23 / 100⟩ ⟨2 / 100⟩ 0 (by decide)⟩

/-- C7 (amended): component consistency.  For shape-valid input and prompt fraction in
`(0, 1]`, when no float32 interpolation `0.5*(e[s]+e[s-1])` overflows (the energy loss
handed to every segment is finite), each entry point of `GetFlashHypothesisCollection`
(point list, track, MC track, two points) returns a Collection with
`total[d] = prompt[d] + late[d]` for every detector `d < N`. -/
theorem component_consistency (hc : FlashHypothesisCalculator) (trajVector : List TVector3)
    (track : Track) (mctrack : MCTrack) (pt1 pt2 : TVector3) (dEdx : ℚ)
    (dEdxTraj dEdxTrack dEdxMC : List ℚ) (geom : Geometry) (pvs : PhotonVisibilityService)
    (larp : LArProperties) (opdigip : OpDigiProperties) (XOffset : ℚ)
    (hf : 0 < larp.ScintYieldRatio) (_hf1 : larp.ScintYieldRatio ≤ 1)
    (hTraj : dEdxTraj.length = trajVector.length ∨ dEdxTraj.length + 1 = trajVector.length)
    (hTrack : dEdxTrack.length = track.NumberTrajectoryPoints
      ∨ dEdxTrack.length + 1 = track.NumberTrajectoryPoints)
    (hMC : dEdxMC.length = mctrack.length ∨ dEdxMC.length + 1 = mctrack.length)
    (hfinTraj : ∀ pt, 1 ≤ pt → pt < trajVector.length →
      (segmentdEdx dEdxTraj (decide (dEdxTraj.length = trajVector.length)) pt).IsFinite)
    (hfinTrack : ∀ pt, 1 ≤ pt → pt < track.NumberTrajectoryPoints →
      (segmentdEdx dEdxTrack (decide (dEdxTrack.length = track.NumberTrajectoryPoints))
        pt).IsFinite)
    (hfinMC : ∀ pt, 1 ≤ pt → pt < mctrack.length →
      (segmentdEdx dEdxMC (decide (dEdxMC.length = mctrack.length)) pt).IsFinite) :
    (∃ c, GetFlashHypothesisCollection_trajVector hc trajVector dEdxTraj geom pvs larp
        opdigip XOffset = .ok c
      ∧ ∀ d, d < geom.NOpDets → c.total.getD d 0 = c.prompt.getD d 0 + c.late.getD d 0)
    ∧ (∃ c, GetFlashHypothesisCollection_track hc track dEdxTrack geom pvs larp opdigip
        XOffset = .ok c
      ∧ ∀ d, d < geom.NOpDets → c.total.getD d 0 = c.prompt.getD d 0 + c.late.getD d 0)
    ∧ (∃ c, GetFlashHypothesisCollection_mctrack hc mctrack dEdxMC geom pvs larp opdigip
        XOffset = .ok c
      ∧ ∀ d, d < geom.NOpDets → c.total.getD d 0 = c.prompt.getD d 0 + c.late.getD d 0)
    ∧ (∃ c, GetFlashHypothesisCollection_pt1pt2 hc pt1 pt2 dEdx geom pvs larp opdigip
        XOffset = .ok c
      ∧ ∀ d, d < geom.NOpDets →
          c.total.getD d 0 = c.prompt.getD d 0 + c.late.getD d 0) := by
  refine ⟨?_, ?_, ?_, ?_⟩
  · rw [trajVector_eq_multiPoint]
    exact multiPoint_consistent hc geom pvs larp opdigip XOffset _ _ _ _ hf hTraj hfinTraj
  · rw [track_eq_multiPoint]
    exact multiPoint_consistent hc geom pvs larp opdigip XOffset _ _ _ _ hf hTrack hfinTrack
  · rw [mctrack_eq_multiPoint]
    exact multiPoint_consistent hc geom pvs larp opdigip XOffset _ _ _ _ hf hMC hfinMC
  · obtain ⟨c, hc'⟩ := create_ok_of_pos hc geom pvs larp opdigip XOffset pt1 pt2
      (FloatVal.fin dEdx) hf
    exact ⟨c, hc', fun d _ =>
      create_consistent hc geom pvs larp opdigip XOffset pt1 pt2 (FloatVal.fin dEdx) trivial
        _ hc' d⟩

/-- C7 (witness): the same two positions in all three representations, the point-sampled
profile `[2, 2]` (whose interpolation is the finite value `2`), prompt fraction `0.23`. -/
theorem component_consistency_witness :
    (0 < (⟨24000, 23 / 100⟩ : LArProperties).ScintYieldRatio
      ∧ (⟨24000, 23 / 100⟩ : LArProperties).ScintYieldRatio ≤ 1)
    ∧ (∀ pt, 1 ≤ pt → pt < 2 →
        (segmentdEdx [2, 2] (decide (([2, 2] : List ℚ).length = 2)) pt).IsFinite)
    ∧ ((∃ c, GetFlashHypothesisCollection_trajVector calcQ [⟨0, 0, 0⟩, ⟨0, 0, 10⟩] [2, 2] ⟨1⟩
          ⟨fun _ => [1 / 1000]⟩ ⟨24000, 23 / 100⟩ ⟨2 / 100⟩ 0 = .ok c
        ∧ ∀ d, d < (⟨1⟩ : Geometry).NOpDets →
            c.total.getD d 0 = c.prompt.getD d 0 + c.late.getD d 0)
      ∧ (∃ c, GetFlashHypothesisCollection_track calcQ ⟨[⟨0, 0, 0⟩, ⟨0, 0, 10⟩]⟩ [2, 2] ⟨1⟩
          ⟨fun _ => [1 / 1000]⟩ ⟨24000, 23 / 100⟩ ⟨2 / 100⟩ 0 = .ok c
        ∧ ∀ d, d < (⟨1⟩ : Geometry).NOpDets →
            c.total.getD d 0 = c.prompt.getD d 0 + c.late.getD d 0)
      ∧ (∃ c, GetFlashHypothesisCollection_mctrack calcQ
          [⟨⟨0, 0, 0, 0⟩, ⟨0, 0, 1, 1⟩⟩, ⟨⟨0, 0, 10, 1⟩, ⟨0, 0, 1, 1⟩⟩] [2, 2] ⟨1⟩
          ⟨fun _ => [1 / 1000]⟩ ⟨24000, 23 / 100⟩ ⟨2 / 100⟩ 0 = .ok c
        ∧ ∀ d, d < (⟨1⟩ : Geometry).NOpDets →
            c.total.getD d 0 = c.prompt.getD d 0 + c.late.getD d 0)
      ∧ (∃ c, GetFlashHypothesisCollection_pt1pt2 calcQ ⟨0, 0, 0⟩ ⟨0, 0, 10⟩ 2 ⟨1⟩
          ⟨fun _ => [1 / 1000]⟩ ⟨24000, 23 / 100⟩ ⟨2 / 100⟩ 0 = .ok c
        ∧ ∀ d, d < (⟨1⟩ : Geometry).NOpDets →
            c.total.getD d 0 = c.prompt.getD d 0 + c.late.getD d 0)) :=
  ⟨⟨by norm_num, by norm_num⟩, segmentdEdx_two_two,
    component_consistency calcQ [⟨0, 0, 0⟩, ⟨0, 0, 10⟩] ⟨[⟨0, 0, 0⟩, ⟨0, 0, 10⟩]⟩
      [⟨⟨0, 0, 0, 0⟩, ⟨0, 0, 1, 1⟩⟩, ⟨⟨0, 0, 10, 1⟩, ⟨0, 0, 1, 1⟩⟩] ⟨0, 0, 0⟩ ⟨0, 0, 10⟩ 2
      [2, 2] [2, 2] [2, 2] ⟨1⟩ ⟨fun _ => [1 / 1000]⟩ ⟨24000, 23 / 100⟩ ⟨2 / 100⟩ 0
      (by norm_num) (by norm_num) (Or.inl rfl) (Or.inl rfl) (Or.inl rfl)
      segmentdEdx_two_two segmentdEdx_two_two segmentdEdx_two_two⟩

/-- C7 (counterexample): the unit segment `(0,0,0)`, `(0,0,1)` with the point-sampled
profile `[2^127, 2^127]` of float32 values, one detector, prompt fraction `1/2`, the
other constants `1`.  The float32 sum overflows, the returned Collection has
`prompt[0] = +inf`, `late[0] = NaN` and `total[0] = +inf`, and `total[0]` is not
`prompt[0] + late[0]`. -/
theorem component_consistency_counterexample :
    binary32.round (2 ^ 127) = FloatVal.fin (2 ^ 127)
    ∧ (([2 ^ 127, 2 ^ 127] : List ℚ).length = ([⟨0, 0, 0⟩, ⟨0, 0, 1⟩] : List TVector3).length)
    ∧ (0 < (⟨1, 1 / 2⟩ : LArProperties).ScintYieldRatio
      ∧ (⟨1, 1 / 2⟩ : LArProperties).ScintYieldRatio ≤ 1)
    ∧ ∃ c, GetFlashHypothesisCollection_trajVector calcQ [⟨0, 0, 0⟩, ⟨0, 0, 1⟩]
          [2 ^ 127, 2 ^ 127] ⟨1⟩ ⟨fun _ => [1]⟩ ⟨1, 1 / 2⟩ ⟨1⟩ 0 = .ok c
        ∧ c.prompt.getD 0 0 = FloatVal.pinf ∧ c.late.getD 0 0 = FloatVal.nan
        ∧ c.total.getD 0 0 = FloatVal.pinf
        ∧ c.total.getD 0 0 ≠ c.prompt.getD 0 0 + c.late.getD 0 0 := by
  refine ⟨round32_pow127, rfl, ⟨by norm_num, by norm_num⟩, _, overflow_scenario calcQ, rfl,
    rfl, rfl, ?_⟩
  intro h
  exact FloatVal.noConfusion h

/-- C8 (amended): fatal configuration error.  For every shape-valid trajectory and
profile with prompt fraction `≤ 0`, the point-list overload fails with the configuration
error as soon as one segment's visibility lookup at the corrected midpoint returns a
vector of the detector count; when no segment does, finalize is never reached and the
all-zero Collection is returned. -/
theorem fatal_configuration_error (hc : FlashHypothesisCalculator)
    (trajVector : List TVector3) (dEdxVector : List ℚ) (geom : Geometry)
    (pvs : PhotonVisibilityService) (larp : LArProperties) (opdigip : OpDigiProperties)
    (XOffset : ℚ)
    (hshape : dEdxVector.length = trajVector.length
      ∨ dEdxVector.length + 1 = trajVector.length)
    (hf : larp.ScintYieldRatio ≤ 0) :
    ((∃ pt, 1 ≤ pt ∧ pt < trajVector.length
        ∧ (pvs.GetAllVisibilities (hc.SegmentMidpoint (trajVector.getD (pt - 1) ⟨0, 0, 0⟩)
            (trajVector.getD pt ⟨0, 0, 0⟩) XOffset)).length = geom.NOpDets) →
      GetFlashHypothesisCollection_trajVector hc trajVector dEdxVector geom pvs larp opdigip
        XOffset = .error .configuration)
    ∧ ((∀ pt, 1 ≤ pt → pt < trajVector.length →
        (pvs.GetAllVisibilities (hc.SegmentMidpoint (trajVector.getD (pt - 1) ⟨0, 0, 0⟩)
            (trajVector.getD pt ⟨0, 0, 0⟩) XOffset)).length ≠ geom.NOpDets) →
      GetFlashHypothesisCollection_trajVector hc trajVector dEdxVector geom pvs larp opdigip
        XOffset = .ok (FlashHypothesisCollection.empty geom.NOpDets)) := by
  rw [trajVector_eq_multiPoint, multiPoint_valid hc geom pvs larp opdigip XOffset _ _ _ _
    hshape]
  constructor
  · rintro ⟨pt, h1, h2, hin⟩
    apply segmentLoop_configuration hc geom pvs larp opdigip XOffset _ _ _ _ _
      (wellSized_empty _) hf
    refine ⟨pt, ?_, ?_⟩
    · rw [List.mem_range'_1]
      omega
    · exact decide_eq_true hin
  · intro hall
    apply segmentLoop_outside hc geom pvs larp opdigip XOffset _ _ _ _ _ (wellSized_empty _)
    intro pt hpt
    rw [List.mem_range'_1] at hpt
    exact decide_eq_false (hall pt hpt.1 (by omega))

/-- C8 (witness): two points, one detector, prompt fraction `0`, a visibility vector of
length one. -/
theorem fatal_configuration_error_witness :
    (([2] : List ℚ).length = ([⟨0, 0, 0⟩, ⟨0, 0, 10⟩] : List TVector3).length
      ∨ ([2] : List ℚ).length + 1 = ([⟨0, 0, 0⟩, ⟨0, 0, 10⟩] : List TVector3).length)
    ∧ (⟨24000, 0⟩ : LArProperties).ScintYieldRatio ≤ 0
    ∧ (∃ pt, 1 ≤ pt ∧ pt < ([⟨0, 0, 0⟩, ⟨0, 0, 10⟩] : List TVector3).length
        ∧ ((⟨fun _ => [1 / 1000]⟩ : PhotonVisibilityService).GetAllVisibilities
            (calcQ.SegmentMidpoint
              (([⟨0, 0, 0⟩, ⟨0, 0, 10⟩] : List TVector3).getD (pt - 1) ⟨0, 0, 0⟩)
              (([⟨0, 0, 0⟩, ⟨0, 0, 10⟩] : List TVector3).getD pt ⟨0, 0, 0⟩) 0)).length
          = (⟨1⟩ : Geometry).NOpDets)
    ∧ GetFlashHypothesisCollection_trajVector calcQ [⟨0, 0, 0⟩, ⟨0, 0, 10⟩] [2] ⟨1⟩
        ⟨fun _ => [1 / 1000]⟩ ⟨24000, 0⟩ ⟨2 / 100⟩ 0 = .error .configuration :=
  ⟨Or.inr rfl, le_refl _, ⟨1, le_refl _, by decide, rfl⟩,
    (fatal_configuration_error calcQ [⟨0, 0, 0⟩, ⟨0, 0, 10⟩] [2] ⟨1⟩ ⟨fun _ => [1 / 1000]⟩
      ⟨24000, 0⟩ ⟨2 / 100⟩ 0 (Or.inr rfl) (le_refl _)).1 ⟨1, le_refl _, by decide, rfl⟩⟩

/-- C8 (counterexample): a shape-valid two-point trajectory, prompt fraction `0`, and a
visibility table that answers with the empty vector: the call does not fail, it returns
the all-zero Collection. -/
theorem fatal_configuration_error_counterexample :
    (([2] : List ℚ).length + 1 = ([⟨0, 0, 0⟩, ⟨0, 0, 10⟩] : List TVector3).length)
    ∧ (⟨24000, 0⟩ : LArProperties).ScintYieldRatio ≤ 0
    ∧ GetFlashHypothesisCollection_trajVector calcQ [⟨0, 0, 0⟩, ⟨0, 0, 10⟩] [2] ⟨1⟩
        ⟨fun _ => []⟩ ⟨24000, 0⟩ ⟨2 / 100⟩ 0 = .ok ⟨[0], [0], [0]⟩
    ∧ GetFlashHypothesisCollection_trajVector calcQ [⟨0, 0, 0⟩, ⟨0, 0, 10⟩] [2] ⟨1⟩
        ⟨fun _ => []⟩ ⟨24000, 0⟩ ⟨2 / 100⟩ 0 ≠ .error .configuration := by
  have h : GetFlashHypothesisCollection_trajVector calcQ [⟨0, 0, 0⟩, ⟨0, 0, 10⟩] [2] ⟨1⟩
      ⟨fun _ => []⟩ ⟨24000, 0⟩ ⟨2 / 100⟩ 0 = .ok ⟨[0], [0], [0]⟩ := by
    simp [GetFlashHypothesisCollection_trajVector, segmentLoop,
      CreateFlashHypothesesFromSegment, FlashHypothesisCollection.add,
      FlashHypothesisCollection.detectorCount, FlashHypothesisCollection.empty,
      FlashHypothesis.zeros, FloatVal.fzero_add]
  refine ⟨rfl, le_refl _, h, ?_⟩
  rw [h]
  exact fun hne => Except.noConfusion hne

/-- C10: representation independence.  A reconstructed track and a simulated track that
expose the position sequence `positions` give, for every profile, the same result as the
point-list overload on `positions`: the same Collection, or an error of the same kind
(the input-shape error in exactly the same cases). -/
theorem representation_independence (hc : FlashHypothesisCalculator) (track : Track)
    (mctrack : MCTrack) (positions : List TVector3) (dEdxVector : List ℚ) (geom : Geometry)
    (pvs : PhotonVisibilityService) (larp : LArProperties) (opdigip : OpDigiProperties)
    (XOffset : ℚ) (hT : track.fXYZ = positions)
    (hM : mctrack.map (fun s => s.Position.Vect) = positions) :
    sameResult
        (GetFlashHypothesisCollection_track hc track dEdxVector geom pvs larp opdigip XOffset)
        (GetFlashHypothesisCollection_trajVector hc positions dEdxVector geom pvs larp
          opdigip XOffset) = true
    ∧ sameResult
        (GetFlashHypothesisCollection_mctrack hc mctrack dEdxVector geom pvs larp opdigip
          XOffset)
        (GetFlashHypothesisCollection_trajVector hc positions dEdxVector geom pvs larp
          opdigip XOffset) = true := by
  constructor
  · rw [track_eq_multiPoint, trajVector_eq_multiPoint]
    have h1 : track.NumberTrajectoryPoints = positions.length := by
      rw [← hT]; rfl
    have h2 : track.LocationAtPoint = fun pt => positions.getD pt ⟨0, 0, 0⟩ := by
      rw [← hT]; rfl
    rw [h1, h2]
    exact multiPoint_sameResult hc geom pvs larp opdigip XOffset _ _ _ _ _
  · rw [mctrack_eq_multiPoint, trajVector_eq_multiPoint, mctrack_locationAt, hM]
    have h1 : mctrack.length = positions.length := by
      rw [← hM, List.length_map]
    rw [h1]
    exact multiPoint_sameResult hc geom pvs larp opdigip XOffset _ _ _ _ _

/-- C10 (witness): the two positions `(0,0,0)`, `(0,0,10)` in the three representations. -/
theorem representation_independence_witness :
    (⟨[⟨0, 0, 0⟩, ⟨0, 0, 10⟩]⟩ : Track).fXYZ = [⟨0, 0, 0⟩, ⟨0, 0, 10⟩]
    ∧ ([⟨⟨0, 0, 0, 0⟩, ⟨0, 0, 1, 1⟩⟩, ⟨⟨0, 0, 10, 1⟩, ⟨0, 0, 1, 1⟩⟩] : MCTrack).map
        (fun s => s.Position.Vect) = [⟨0, 0, 0⟩, ⟨0, 0, 10⟩]
    ∧ sameResult
        (GetFlashHypothesisCollection_track calcQ ⟨[⟨0, 0, 0⟩, ⟨0, 0, 10⟩]⟩ [2] ⟨1⟩
          ⟨fun _ => [1 / 1000]⟩ ⟨24000, 23 / 100⟩ ⟨2 / 100⟩ 0)
        (GetFlashHypothesisCollection_trajVector calcQ [⟨0, 0, 0⟩, ⟨0, 0, 10⟩] [2] ⟨1⟩
          ⟨fun _ => [1 / 1000]⟩ ⟨24000, 23 / 100⟩ ⟨2 / 100⟩ 0) = true
    ∧ sameResult
        (GetFlashHypothesisCollection_mctrack calcQ
          [⟨⟨0, 0, 0, 0⟩, ⟨0, 0, 1, 1⟩⟩, ⟨⟨0, 0, 10, 1⟩, ⟨0, 0, 1, 1⟩⟩] [2] ⟨1⟩
          ⟨fun _ => [1 / 1000]⟩ ⟨24000, 23 / 100⟩ ⟨2 / 100⟩ 0)
        (GetFlashHypothesisCollection_trajVector calcQ [⟨0, 0, 0⟩, ⟨0, 0, 10⟩] [2] ⟨1⟩
          ⟨fun _ => [1 / 1000]⟩ ⟨24000, 23 / 100⟩ ⟨2 / 100⟩ 0) = true :=
  ⟨rfl, rfl, representation_independence calcQ ⟨[⟨0, 0, 0⟩, ⟨0, 0, 10⟩]⟩
    [⟨⟨0, 0, 0, 0⟩, ⟨0, 0, 1, 1⟩⟩, ⟨⟨0, 0, 10, 1⟩, ⟨0, 0, 1, 1⟩⟩] [⟨0, 0, 0⟩, ⟨0, 0, 10⟩]
    [2] ⟨1⟩ ⟨fun _ => [1 / 1000]⟩ ⟨24000, 23 / 100⟩ ⟨2 / 100⟩ 0 rfl rfl⟩

/-- C11: output length.  Whenever one of the four entry points of
`GetFlashHypothesisCollection` returns a Collection, its prompt, late and total vectors
each have length exactly `N`, the detector count, whatever the visibility lookups
returned and however many segments the trajectory has. -/
theorem output_length (hc : FlashHypothesisCalculator) (geom : Geometry)
    (pvs : PhotonVisibilityService) (larp : LArProperties) (opdigip : OpDigiProperties)
    (XOffset : ℚ) (c : FlashHypothesisCollection) :
    (∀ (trajVector : List TVector3) (dEdxVector : List ℚ),
      GetFlashHypothesisCollection_trajVector hc trajVector dEdxVector geom pvs larp opdigip
        XOffset = .ok c →
      c.prompt.length = geom.NOpDets ∧ c.late.length = geom.NOpDets
        ∧ c.total.length = geom.NOpDets)
    ∧ (∀ (track : Track) (dEdxVector : List ℚ),
      GetFlashHypothesisCollection_track hc track dEdxVector geom pvs larp opdigip
        XOffset = .ok c →
      c.prompt.length = geom.NOpDets ∧ c.late.length = geom.NOpDets
        ∧ c.total.length = geom.NOpDets)
    ∧ (∀ (mctrack : MCTrack) (dEdxVector : List ℚ),
      GetFlashHypothesisCollection_mctrack hc mctrack dEdxVector geom pvs larp opdigip
        XOffset = .ok c →
      c.prompt.length = geom.NOpDets ∧ c.late.length = geom.NOpDets
        ∧ c.total.length = geom.NOpDets)
    ∧ (∀ (pt1 pt2 : TVector3) (dEdx : ℚ),
      GetFlashHypothesisCollection_pt1pt2 hc pt1 pt2 dEdx geom pvs larp opdigip
        XOffset = .ok c →
      c.prompt.length = geom.NOpDets ∧ c.late.length = geom.NOpDets
        ∧ c.total.length = geom.NOpDets) := by
  refine ⟨?_, ?_, ?_, ?_⟩
  · intro trajVector dEdxVector h
    rw [trajVector_eq_multiPoint] at h
    exact multiPoint_wellSized hc geom pvs larp opdigip XOffset _ _ _ _ _ h
  · intro track dEdxVector h
    rw [track_eq_multiPoint] at h
    exact multiPoint_wellSized hc geom pvs larp opdigip XOffset _ _ _ _ _ h
  · intro mctrack dEdxVector h
    rw [mctrack_eq_multiPoint] at h
    exact multiPoint_wellSized hc geom pvs larp opdigip XOffset _ _ _ _ _ h
  · intro pt1 pt2 dEdx h
    exact create_wellSized hc geom pvs larp opdigip XOffset _ _ _ _ h

/-- C11 (witness): a three-point trajectory over two detectors whose second segment is
outside the visibility domain; the point-list overload returns a Collection, and its
three vectors have length two. -/
theorem output_length_witness :
    GetFlashHypothesisCollection_trajVector calcQ [⟨0, 0, 0⟩, ⟨0, 0, 10⟩, ⟨0, 0, 30⟩] [2, 3]
        ⟨2⟩ ⟨fun p => if p.z < 6 then [1 / 1000, 0] else []⟩ ⟨24000, 1 / 4⟩ ⟨1 / 50⟩ 0
      = .ok ⟨[24 / 10, 0], [72 / 10, 0], [96 / 10, 0]⟩
    ∧ (([24 / 10, 0] : List FloatVal).length = (⟨2⟩ : Geometry).NOpDets
      ∧ ([72 / 10, 0] : List FloatVal).length = (⟨2⟩ : Geometry).NOpDets
      ∧ ([96 / 10, 0] : List FloatVal).length = (⟨2⟩ : Geometry).NOpDets) := by
  have h : GetFlashHypothesisCollection_trajVector calcQ
      [⟨0, 0, 0⟩, ⟨0, 0, 10⟩, ⟨0, 0, 30⟩] [2, 3] ⟨2⟩
      ⟨fun p => if p.z < 6 then [1 / 1000, 0] else []⟩ ⟨24000, 1 / 4⟩ ⟨1 / 50⟩ 0
      = .ok ⟨[24 / 10, 0], [72 / 10, 0], [96 / 10, 0]⟩ := by
    have hs := segmentLength_scenario calcQ
    simp [GetFlashHypothesisCollection_trajVector, segmentLoop, List.range',
      CreateFlashHypothesesFromSegment, FlashHypothesisCollection.add,
      FlashHypothesisCollection.detectorCount, FlashHypothesisCollection.empty,
      FlashHypothesis.zeros, FlashHypothesisCollection.SetPromptHypAndPromptFraction,
      FlashHypothesisCalculator.FillFlashHypothesis,
      FlashHypothesisCalculator.SegmentMidpoint, hs, List.range_succ, FloatVal.ofNat_eq,
      FloatVal.zero_def, FloatVal.fin_mul_fin, FloatVal.fin_add_fin, FloatVal.fin_sub_fin,
      FloatVal.fin_div_fin]
    norm_num [FloatVal.fin_add_fin]
  exact ⟨h, (output_length calcQ ⟨2⟩ ⟨fun p => if p.z < 6 then [1 / 1000, 0] else []⟩
    ⟨24000, 1 / 4⟩ ⟨1 / 50⟩ 0 _).1 _ _ h⟩

/-- C12 (amended): non-negativity.  For shape-valid input in which all energy-loss values,
the scintillation yield, the quantum efficiency and every visibility fraction are `≥ 0`
and the prompt fraction lies in `(0, 1]`, when no float32 interpolation
`0.5*(e[s]+e[s-1])` overflows (the energy loss handed to every segment is finite), the
point-list overload returns a Collection and every entry of its prompt, late and total
vectors is a finite number `≥ 0`. -/
theorem non_negativity (hc : FlashHypothesisCalculator) (trajVector : List TVector3)
    (dEdxVector : List ℚ) (geom : Geometry) (pvs : PhotonVisibilityService)
    (larp : LArProperties) (opdigip : OpDigiProperties) (XOffset : ℚ)
    (hshape : dEdxVector.length = trajVector.length
      ∨ dEdxVector.length + 1 = trajVector.length)
    (he : ∀ x ∈ dEdxVector, 0 ≤ x) (hY : 0 ≤ larp.ScintYield) (hQ : 0 ≤ opdigip.QE)
    (hv : ∀ pos, ∀ v ∈ pvs.GetAllVisibilities pos, 0 ≤ v)
    (hf : 0 < larp.ScintYieldRatio) (hf1 : larp.ScintYieldRatio ≤ 1)
    (hfin : ∀ pt, 1 ≤ pt → pt < trajVector.length →
      (segmentdEdx dEdxVector (decide (dEdxVector.length = trajVector.length))
        pt).IsFinite) :
    ∃ c, GetFlashHypothesisCollection_trajVector hc trajVector dEdxVector geom pvs larp
        opdigip XOffset = .ok c
      ∧ (∀ x ∈ c.prompt, x.IsFinNonneg) ∧ (∀ x ∈ c.late, x.IsFinNonneg)
      ∧ (∀ x ∈ c.total, x.IsFinNonneg) := by
  rw [trajVector_eq_multiPoint, multiPoint_valid hc geom pvs larp opdigip XOffset _ _ _ _
    hshape]
  refine ⟨_, segmentLoop_eq_foldl hc geom pvs larp opdigip XOffset _ _ _ _ _
    (wellSized_empty _) (Or.inl hf), ?_⟩
  have hng : ∀ pt ∈ List.range' 1 (trajVector.length - 1),
      (segmentCollection hc geom pvs larp opdigip XOffset
        (fun pt => trajVector.getD pt ⟨0, 0, 0⟩) dEdxVector
        (decide (dEdxVector.length = trajVector.length)) pt).Nonneg := by
    intro pt hpt
    rw [List.mem_range'_1] at hpt
    obtain ⟨hpt1, hpt2⟩ := hpt
    exact nonneg_segmentCollection hc geom pvs larp opdigip XOffset _ _ _ pt he
      (hfin pt hpt1 (by omega)) hY hf hf1 hQ hv
  have hn := nonneg_foldl _
    (segmentCollection_wellSized hc geom pvs larp opdigip XOffset
      (fun pt => trajVector.getD pt ⟨0, 0, 0⟩) dEdxVector
      (decide (dEdxVector.length = trajVector.length)))
    (List.range' 1 (trajVector.length - 1)) hng
    _ (wellSized_empty _) (nonneg_empty _)
  exact ⟨forall_mem_isFinNonneg_of_getD _ (fun d => (hn d).1),
    forall_mem_isFinNonneg_of_getD _ (fun d => (hn d).2.1),
    forall_mem_isFinNonneg_of_getD _ (fun d => (hn d).2.2)⟩

/-- C12 (witness): the two-point scenario with the point-sampled profile `[2, 2]`, one
detector and prompt fraction `0.23`. -/
theorem non_negativity_witness :
    (∀ pt, 1 ≤ pt → pt < ([⟨0, 0, 0⟩, ⟨0, 0, 10⟩] : List TVector3).length →
      (segmentdEdx [2, 2] (decide (([2, 2] : List ℚ).length
        = ([⟨0, 0, 0⟩, ⟨0, 0, 10⟩] : List TVector3).length)) pt).IsFinite)
    ∧ ∃ c, GetFlashHypothesisCollection_trajVector calcQ [⟨0, 0, 0⟩, ⟨0, 0, 10⟩] [2, 2] ⟨1⟩
        ⟨fun _ => [1 / 1000]⟩ ⟨24000, 23 / 100⟩ ⟨2 / 100⟩ 0 = .ok c
      ∧ (∀ x ∈ c.prompt, x.IsFinNonneg) ∧ (∀ x ∈ c.late, x.IsFinNonneg)
      ∧ (∀ x ∈ c.total, x.IsFinNonneg) :=
  ⟨segmentdEdx_two_two,
    non_negativity calcQ [⟨0, 0, 0⟩, ⟨0, 0, 10⟩] [2, 2] ⟨1⟩ ⟨fun _ => [1 / 1000]⟩
      ⟨24000, 23 / 100⟩ ⟨2 / 100⟩ 0 (Or.inl rfl)
      (by intro x hx; simp at hx; subst hx; norm_num)
      (by norm_num) (by norm_num)
      (by intro pos v hv; simp at hv; subst hv; norm_num)
      (by norm_num) (by norm_num) segmentdEdx_two_two⟩

/-- C12 (counterexample): the unit segment `(0,0,0)`, `(0,0,1)` with the point-sampled
profile `[2^127, 2^127]` of float32 values, one detector of visibility `1`, prompt
fraction `1/2`, scintillation yield and quantum efficiency `1`: the input is shape-valid
and every sign condition of the claim holds, the float32 sum overflows, and the returned
Collection has `late[0] = NaN`, which is not `≥ 0`. -/
theorem non_negativity_counterexample :
    binary32.round (2 ^ 127) = FloatVal.fin (2 ^ 127)
    ∧ (([2 ^ 127, 2 ^ 127] : List ℚ).length = ([⟨0, 0, 0⟩, ⟨0, 0, 1⟩] : List TVector3).length)
    ∧ (∀ x ∈ ([2 ^ 127, 2 ^ 127] : List ℚ), 0 ≤ x)
    ∧ (0 ≤ (⟨1, 1 / 2⟩ : LArProperties).ScintYield ∧ 0 ≤ (⟨1⟩ : OpDigiProperties).QE
      ∧ ∀ pos, ∀ v ∈ (⟨fun _ => [1]⟩ : PhotonVisibilityService).GetAllVisibilities pos, 0 ≤ v)
    ∧ (0 < (⟨1, 1 / 2⟩ : LArProperties).ScintYieldRatio
      ∧ (⟨1, 1 / 2⟩ : LArProperties).ScintYieldRatio ≤ 1)
    ∧ ∃ c, GetFlashHypothesisCollection_trajVector calcQ [⟨0, 0, 0⟩, ⟨0, 0, 1⟩]
          [2 ^ 127, 2 ^ 127] ⟨1⟩ ⟨fun _ => [1]⟩ ⟨1, 1 / 2⟩ ⟨1⟩ 0 = .ok c
        ∧ c.late = [FloatVal.nan]
        ∧ ¬ (c.late.getD 0 0).IsNonneg := by
  refine ⟨round32_pow127, rfl, ?_, ⟨by norm_num, by norm_num, ?_⟩, ⟨by norm_num, by norm_num⟩,
    _, overflow_scenario calcQ, rfl, ?_⟩
  · intro x hx
    simp at hx
    subst hx
    norm_num
  · intro pos v hv
    simp at hv
    subst hv
    norm_num
  · intro h
    exact h

/-- C18: trajectories without a segment.  For a trajectory of one point with a profile of
length one or zero, and for the empty trajectory with the empty profile, the point-list
overload visits no segment (the list of visited point indices is empty), so whatever
the visibility table and the prompt fraction are it raises no error and returns the
Collection whose prompt, late and total are zero vectors of length `N`. -/
theorem trajectory_without_segment (hc : FlashHypothesisCalculator)
    (trajVector : List TVector3) (dEdxVector : List ℚ) (geom : Geometry)
    (pvs : PhotonVisibilityService) (larp : LArProperties) (opdigip : OpDigiProperties)
    (XOffset : ℚ) (hT : trajVector.length ≤ 1)
    (hshape : dEdxVector.length = trajVector.length
      ∨ dEdxVector.length + 1 = trajVector.length) :
    List.range' 1 (trajVector.length - 1) = []
    ∧ GetFlashHypothesisCollection_trajVector hc trajVector dEdxVector geom pvs larp opdigip
        XOffset
      = .ok ⟨List.replicate geom.NOpDets 0, List.replicate geom.NOpDets 0,
          List.replicate geom.NOpDets 0⟩ := by
  have h0 : trajVector.length - 1 = 0 := by omega
  refine ⟨by rw [h0]; rfl, ?_⟩
  rw [trajVector_eq_multiPoint, multiPoint_valid hc geom pvs larp opdigip XOffset _ _ _ _
    hshape, h0]
  rfl

/-- C18 (witness): one point with a one-value profile, prompt fraction `0` and a
visibility table that would answer with a vector of the detector count. -/
theorem trajectory_without_segment_witness :
    ([⟨1, 2, 3⟩] : List TVector3).length ≤ 1
    ∧ (([5] : List ℚ).length = ([⟨1, 2, 3⟩] : List TVector3).length
      ∨ ([5] : List ℚ).length + 1 = ([⟨1, 2, 3⟩] : List TVector3).length)
    ∧ List.range' 1 (([⟨1, 2, 3⟩] : List TVector3).length - 1) = []
    ∧ GetFlashHypothesisCollection_trajVector calcQ [⟨1, 2, 3⟩] [5] ⟨2⟩
        ⟨fun _ => [1 / 1000, 1 / 1000]⟩ ⟨24000, 0⟩ ⟨2 / 100⟩ 0
      = .ok ⟨List.replicate (⟨2⟩ : Geometry).NOpDets 0,
          List.replicate (⟨2⟩ : Geometry).NOpDets 0,
          List.replicate (⟨2⟩ : Geometry).NOpDets 0⟩ :=
  ⟨le_refl _, Or.inl rfl,
    trajectory_without_segment calcQ [⟨1, 2, 3⟩] [5] ⟨2⟩ ⟨fun _ => [1 / 1000, 1 / 1000]⟩
      ⟨24000, 0⟩ ⟨2 / 100⟩ 0 (le_refl _) (Or.inl rfl)⟩

/-- C16: order independence.  For every shape-valid trajectory and profile, visiting the
segments in any order gives the result of the point-list overload; and for every
trajectory and profile, the overload returns the same result on the reversed point list
with the reversed profile as on the original ones. -/
theorem order_independence (hc : FlashHypothesisCalculator) (p : List TVector3)
    (e : List ℚ) (geom : Geometry) (pvs : PhotonVisibilityService) (larp : LArProperties)
    (opdigip : OpDigiProperties) (XOffset : ℚ) :
    (∀ order : List Nat, order.Perm (List.range' 1 (p.length - 1)) →
      (e.length = p.length ∨ e.length + 1 = p.length) →
      segmentLoop hc (fun pt => p.getD pt ⟨0, 0, 0⟩) e (decide (e.length = p.length)) geom
          pvs larp opdigip XOffset order (FlashHypothesisCollection.empty geom.NOpDets)
        = GetFlashHypothesisCollection_trajVector hc p e geom pvs larp opdigip XOffset)
    ∧ GetFlashHypothesisCollection_trajVector hc p.reverse e.reverse geom pvs larp opdigip
          XOffset
        = GetFlashHypothesisCollection_trajVector hc p e geom pvs larp opdigip XOffset := by
  constructor
  · intro order hperm hshape
    rw [trajVector_eq_multiPoint, multiPoint_valid hc geom pvs larp opdigip XOffset _ _ _ _
      hshape]
    exact segmentLoop_perm hc geom pvs larp opdigip XOffset _ _ _ hperm _
      (wellSized_empty _)
  · rw [trajVector_eq_multiPoint, trajVector_eq_multiPoint]
    by_cases hshape : e.length = p.length ∨ e.length + 1 = p.length
    · have hshape' : e.reverse.length = p.reverse.length
          ∨ e.reverse.length + 1 = p.reverse.length := by
        simpa only [List.length_reverse] using hshape
      rw [multiPoint_valid hc geom pvs larp opdigip XOffset _ _ _ _ hshape,
        multiPoint_valid hc geom pvs larp opdigip XOffset _ _ _ _ hshape']
      simp only [List.length_reverse]
      rw [segmentLoop_reindex hc geom pvs larp opdigip XOffset
        (fun pt => p.reverse.getD pt ⟨0, 0, 0⟩) (fun pt => p.getD pt ⟨0, 0, 0⟩)
        e.reverse e (decide (e.length = p.length)) (decide (e.length = p.length))
        (fun s => p.length - s)]
      · exact segmentLoop_perm hc geom pvs larp opdigip XOffset _ _ _
          (map_sub_range'_perm p.length) _ (wellSized_empty _)
      · intro pt hpt
        rw [List.mem_range'_1] at hpt
        have ha : p.reverse.getD (pt - 1) ⟨0, 0, 0⟩ = p.getD (p.length - pt) ⟨0, 0, 0⟩ := by
          rw [getD_reverse_of_lt p (pt - 1) _ (by omega)]
          congr 1
          omega
        have hb : p.reverse.getD pt ⟨0, 0, 0⟩ = p.getD (p.length - pt - 1) ⟨0, 0, 0⟩ := by
          rw [getD_reverse_of_lt p pt _ (by omega)]
          congr 1
          omega
        simp only [ha, hb]
        rw [segmentdEdx_reverse e p.length pt hshape hpt.1 (by omega)]
        exact create_swap hc geom pvs larp opdigip XOffset _ _ _
    · have hshape' : ¬ (e.reverse.length = p.reverse.length
          ∨ e.reverse.length + 1 = p.reverse.length) := by
        simpa only [List.length_reverse] using hshape
      rw [multiPoint_invalid hc geom pvs larp opdigip XOffset _ _ _ _ hshape,
        multiPoint_invalid hc geom pvs larp opdigip XOffset _ _ _ _ hshape']

/-- C16 (witness): the three segments of a four-point trajectory visited in the order
3, 1, 2. -/
theorem order_independence_witness :
    segmentLoop calcQ
        (fun pt => ([⟨0, 0, 0⟩, ⟨0, 0, 10⟩, ⟨0, 3, 14⟩, ⟨0, 3, 30⟩] : List TVector3).getD pt
          ⟨0, 0, 0⟩) [1, 2, 3]
        (decide (([1, 2, 3] : List ℚ).length
          = ([⟨0, 0, 0⟩, ⟨0, 0, 10⟩, ⟨0, 3, 14⟩, ⟨0, 3, 30⟩] : List TVector3).length))
        ⟨2⟩ ⟨fun p => if p.z < 6 then [1 / 1000, 0] else [0, 1 / 1000]⟩ ⟨24000, 1 / 4⟩
        ⟨1 / 50⟩ 0 [3, 1, 2] (FlashHypothesisCollection.empty (⟨2⟩ : Geometry).NOpDets)
      = GetFlashHypothesisCollection_trajVector calcQ
          [⟨0, 0, 0⟩, ⟨0, 0, 10⟩, ⟨0, 3, 14⟩, ⟨0, 3, 30⟩] [1, 2, 3] ⟨2⟩
          ⟨fun p => if p.z < 6 then [1 / 1000, 0] else [0, 1 / 1000]⟩ ⟨24000, 1 / 4⟩
          ⟨1 / 50⟩ 0 :=
  (order_independence calcQ [⟨0, 0, 0⟩, ⟨0, 0, 10⟩, ⟨0, 3, 14⟩, ⟨0, 3, 30⟩] [1, 2, 3] ⟨2⟩
    ⟨fun p => if p.z < 6 then [1 / 1000, 0] else [0, 1 / 1000]⟩ ⟨24000, 1 / 4⟩ ⟨1 / 50⟩
    0).1 [3, 1, 2] (by decide) (Or.inr rfl)

/-- C17: additivity over concatenation.  For a trajectory `p_0..p_n` with a
segment-averaged profile `e_0..e_{n-1}` and every split index `k ≤ n`, the result of the
point-list overload on the whole trajectory is the sum (`add`) of the Collections
returned for `p_0..p_k` with `e_0..e_{k-1}` and for `p_k..p_n` with `e_k..e_{n-1}`; when
one of the two parts fails, the whole fails with the same error. -/
theorem additivity_over_concatenation (hc : FlashHypothesisCalculator)
    (p : List TVector3) (e : List ℚ) (k : Nat) (geom : Geometry)
    (pvs : PhotonVisibilityService) (larp : LArProperties) (opdigip : OpDigiProperties)
    (XOffset : ℚ) (hlen : e.length + 1 = p.length) (hk : k ≤ e.length) :
    GetFlashHypothesisCollection_trajVector hc p e geom pvs larp opdigip XOffset
      = match GetFlashHypothesisCollection_trajVector hc (p.take (k + 1)) (e.take k) geom
            pvs larp opdigip XOffset with
        | .error err => .error err
        | .ok a =>
          match GetFlashHypothesisCollection_trajVector hc (p.drop k) (e.drop k) geom pvs
              larp opdigip XOffset with
          | .error err => .error err
          | .ok b => a.add b := by
  have hL : (e.take k).length + 1 = (p.take (k + 1)).length := by
    rw [List.length_take, List.length_take]
    omega
  have hR : (e.drop k).length + 1 = (p.drop k).length := by
    rw [List.length_drop, List.length_drop]
    omega
  have fW : decide (e.length = p.length) = false := decide_eq_false (by omega)
  have fL : decide ((e.take k).length = (p.take (k + 1)).length) = false :=
    decide_eq_false (by omega)
  have fR : decide ((e.drop k).length = (p.drop k).length) = false :=
    decide_eq_false (by omega)
  have nW : p.length - 1 = (e.length - k) + k := by omega
  have nL : (p.take (k + 1)).length - 1 = k := by
    rw [List.length_take]
    omega
  have nR : (p.drop k).length - 1 = e.length - k := by
    rw [List.length_drop]
    omega
  have hleft : segmentLoop hc (fun pt => (p.take (k + 1)).getD pt ⟨0, 0, 0⟩) (e.take k) false
      geom pvs larp opdigip XOffset (List.range' 1 k)
      (FlashHypothesisCollection.empty geom.NOpDets)
      = segmentLoop hc (fun pt => p.getD pt ⟨0, 0, 0⟩) e false geom pvs larp opdigip XOffset
          (List.range' 1 k) (FlashHypothesisCollection.empty geom.NOpDets) := by
    rw [segmentLoop_reindex hc geom pvs larp opdigip XOffset
      (fun pt => (p.take (k + 1)).getD pt ⟨0, 0, 0⟩) (fun pt => p.getD pt ⟨0, 0, 0⟩)
      (e.take k) e false false (fun s => s), List.map_id']
    intro pt hpt
    rw [List.mem_range'_1] at hpt
    simp only [segmentdEdx, Bool.false_eq_true, if_false]
    rw [getD_take_of_lt p (k + 1) (pt - 1) _ (by omega),
      getD_take_of_lt p (k + 1) pt _ (by omega),
      getD_take_of_lt e k (pt - 1) _ (by omega)]
  have hright : segmentLoop hc (fun pt => (p.drop k).getD pt ⟨0, 0, 0⟩) (e.drop k) false
      geom pvs larp opdigip XOffset (List.range' 1 (e.length - k))
      (FlashHypothesisCollection.empty geom.NOpDets)
      = segmentLoop hc (fun pt => p.getD pt ⟨0, 0, 0⟩) e false geom pvs larp opdigip XOffset
          (List.range' (1 + k) (e.length - k))
          (FlashHypothesisCollection.empty geom.NOpDets) := by
    rw [segmentLoop_reindex hc geom pvs larp opdigip XOffset
      (fun pt => (p.drop k).getD pt ⟨0, 0, 0⟩) (fun pt => p.getD pt ⟨0, 0, 0⟩)
      (e.drop k) e false false (fun s => k + s), List.map_add_range', Nat.add_comm k 1]
    intro pt hpt
    rw [List.mem_range'_1] at hpt
    simp only [segmentdEdx, Bool.false_eq_true, if_false]
    rw [getD_drop_add p k (pt - 1), getD_drop_add p k pt, getD_drop_add e k (pt - 1)]
    have hidx : k + (pt - 1) = k + pt - 1 := by omega
    rw [hidx]
  rw [trajVector_eq_multiPoint, trajVector_eq_multiPoint, trajVector_eq_multiPoint,
    multiPoint_valid hc geom pvs larp opdigip XOffset _ _ _ _ (Or.inr hlen),
    multiPoint_valid hc geom pvs larp opdigip XOffset _ _ _ _ (Or.inr hL),
    multiPoint_valid hc geom pvs larp opdigip XOffset _ _ _ _ (Or.inr hR),
    fW, fL, fR, nW, nL, nR, hleft, hright, ← List.range'_append_1, segmentLoop_append]
  cases h : segmentLoop hc (fun pt => p.getD pt ⟨0, 0, 0⟩) e false geom pvs larp opdigip
      XOffset (List.range' 1 k) (FlashHypothesisCollection.empty geom.NOpDets) with
  | error err => rfl
  | ok a =>
    dsimp only
    exact segmentLoop_from hc geom pvs larp opdigip XOffset _ _ _ _ a
      (segmentLoop_wellSized hc geom pvs larp opdigip XOffset _ _ _ _ _ _
        (wellSized_empty _) h)

/-- C17 (witness): a four-point trajectory split at its second point. -/
theorem additivity_over_concatenation_witness :
    ([1, 2, 3] : List ℚ).length + 1
        = ([⟨0, 0, 0⟩, ⟨0, 0, 10⟩, ⟨0, 3, 14⟩, ⟨0, 3, 30⟩] : List TVector3).length
    ∧ 1 ≤ ([1, 2, 3] : List ℚ).length
    ∧ GetFlashHypothesisCollection_trajVector calcQ
          [⟨0, 0, 0⟩, ⟨0, 0, 10⟩, ⟨0, 3, 14⟩, ⟨0, 3, 30⟩] [1, 2, 3] ⟨2⟩
          ⟨fun p => if p.z < 6 then [1 / 1000, 0] else [0, 1 / 1000]⟩ ⟨24000, 1 / 4⟩
          ⟨1 / 50⟩ 0
        = match GetFlashHypothesisCollection_trajVector calcQ
              (([⟨0, 0, 0⟩, ⟨0, 0, 10⟩, ⟨0, 3, 14⟩, ⟨0, 3, 30⟩] : List TVector3).take (1 + 1))
              (([1, 2, 3] : List ℚ).take 1) ⟨2⟩
              ⟨fun p => if p.z < 6 then [1 / 1000, 0] else [0, 1 / 1000]⟩ ⟨24000, 1 / 4⟩
              ⟨1 / 50⟩ 0 with
          | .error err => .error err
          | .ok a =>
            match GetFlashHypothesisCollection_trajVector calcQ
                (([⟨0, 0, 0⟩, ⟨0, 0, 10⟩, ⟨0, 3, 14⟩, ⟨0, 3, 30⟩] : List TVector3).drop 1)
                (([1, 2, 3] : List ℚ).drop 1) ⟨2⟩
                ⟨fun p => if p.z < 6 then [1 / 1000, 0] else [0, 1 / 1000]⟩ ⟨24000, 1 / 4⟩
                ⟨1 / 50⟩ 0 with
            | .error err => .error err
            | .ok b => a.add b :=
  ⟨rfl, by decide,
    additivity_over_concatenation calcQ [⟨0, 0, 0⟩, ⟨0, 0, 10⟩, ⟨0, 3, 14⟩, ⟨0, 3, 30⟩]
      [1, 2, 3] 1 ⟨2⟩ ⟨fun p => if p.z < 6 then [1 / 1000, 0] else [0, 1 / 1000]⟩
      ⟨24000, 1 / 4⟩ ⟨1 / 50⟩ 0 rfl (by decide)⟩

end claims

end opdet

namespace t0

open ieee

section t0lemmas

/-- The identifier handed to `TrackIDToParticle` in the track loop. -/
theorem trackLoop_cons (bt : BackTracker) (allHits : List Hit) (rest : List (List Hit))
    (iTrk : Nat) (out : Products) :
    trackLoop bt (allHits :: rest) iTrk out
      = match bt.TrackIDToParticle (selectMostCharge (accumulateIDEs bt allHits) 0).TrackID with
        | none => trackLoop bt rest (iTrk + 1) out
        | some particle =>
          trackLoop bt rest (iTrk + 1)
            ⟨out.T0col ++ [⟨particle.T, 2, particle.TrackId, out.T0col.length⟩],
              out.Trackassn ++ [(iTrk, out.T0col.length)],
              out.Showerassn,
              out.tree ++ [(particle.T, particle.TrackId)]⟩ := rfl

/-- The energies of the examples are `double` values. -/
theorem round64_three : binary64.round 3 = FloatVal.fin 3 :=
  binary64.round_of_exact 3 1 6755399441055744 (by norm_num) (by norm_num)
    (by norm_num [binary64]) (by norm_num [binary64])

end t0lemmas

section t0claims

/-- C14 (failing input): an event with two tracks.  The hit of track 0 has no
contribution, so no particle is found and the track is skipped; the hit of track 1
comes from particle 5.  The one T0 object stored is associated with track 1, and its
fourth value is `0`, the size of the T0 collection when it was pushed, not the track
number `1`. -/
theorem t0_record_identifier_failing_input :
    produce (btOf [[], [⟨5, 1, 3⟩]] [5]) ⟨false, some [[0], [1]], none⟩
      = some ⟨[⟨100, 2, 5, 0⟩], [(1, 0)], [], [(100, 5)]⟩ := by
  have h0 : accumulateIDEs (btOf [[], [⟨5, 1, 3⟩]] [5]) [0] = [] := by
    simp [accumulateIDEs, btOf]
  have h1 : accumulateIDEs (btOf [[], [⟨5, 1, 3⟩]] [5]) [1] = [(5, FloatVal.fin 3)] := by
    simp [accumulateIDEs, btOf, mapAdd, FloatVal.zero_def, FloatVal.fin_add_fin,
      Format.roundVal, round64_three]
  have s0 : (selectMostCharge [] 0).TrackID = 0 := rfl
  have s1 : (selectMostCharge [(5, FloatVal.fin 3)] 0).TrackID = 5 := by
    simp [selectMostCharge, selectStep, FloatVal.gt]
    norm_num
  have p0 : (btOf [[], [⟨5, 1, 3⟩]] [5]).TrackIDToParticle 0 = none := by
    simp [btOf]
  have p5 : (btOf [[], [⟨5, 1, 3⟩]] [5]).TrackIDToParticle 5 = some ⟨5, 100⟩ := by
    simp [btOf]
  simp only [produce, Bool.false_eq_true, if_false, trackLoop_cons, h0, h1, s0, s1, p0, p5,
    trackLoop, List.nil_append, List.length_nil, Nat.zero_add]

end t0claims

end t0
